import Mathlib

/-!
# e621.sh: the session state machine of `main.go`

A shallow embedding of the Bubble Tea model of `src/main.go`: the session state
(`model`), the messages it receives, the commands it emits, and the transition
function `Update` with its helpers `updateEntrance` and `triggerPreviewUpdate`.
The body of `Update` is split along its cases (`UpdateBrowsing` for the type switch,
`UpdatePostsFetched`, `UpdateKeyFocused`, `UpdateKeyUnfocused` and one function per key
binding); each part embeds the lines of the case it names, in the order of the source.

Conventions.
* Go `int` is `Int`; the arithmetic of the source (page numbers up to 750, terminal
  sizes) stays far from the machine bounds, and `/` is Go's truncating division
  (`Int.tdiv`).
* A Go run-time panic (an index out of range) is the result `none`.
* An `error` value is represented by its message; `nil` is `none`.
* The widgets of the `bubbles` toolkit (text input, table, viewport, spinner) are
  external to the repository. They are represented by the part of their state that
  `main.go` reads or writes. What the toolkit alone decides (how a key edits the text,
  how a viewport scrolls, how a spinner frame is drawn) is the parameter `Bubbles`.
* The package `regexp` of the standard library is represented for the one pattern of
  `filterRegex`: a leftmost-first backtracking matcher over the characters of the text,
  reporting byte offsets of the UTF-8 encoding, as `FindAllStringSubmatchIndex` does.
-/

namespace E621

/-! ## API structures -/

structure PostScore where
  Total : Int
deriving DecidableEq, Repr

structure PostTags where
  General : List String
  Species : List String
  Character : List String
  Copyright : List String
  Artist : List String
  Invalid : List String
  Lore : List String
  Meta : List String
deriving DecidableEq, Repr

structure PostFile where
  URL : String
  Width : Int
  Height : Int
deriving DecidableEq, Repr

structure PostSample where
  URL : String
  Has : Bool
deriving DecidableEq, Repr

structure Post where
  ID : Int
  Pools : List Int
  Score : PostScore
  Rating : String
  Tags : PostTags
  File : PostFile
  Sample : PostSample
deriving DecidableEq, Repr

/-! ## Messages and commands -/

/-- The messages `Update` receives. `key s` is a `tea.KeyMsg` whose `String()` is `s`;
`other` stands for every message type the source has no case for (mouse events, the
cursor blink of the text input, ...). -/
inductive Msg where
  | windowSize (Width Height : Int)
  | key (s : String)
  | postsFetched (posts : List Post)
  | previewLoaded (content : String)
  | error (err : String)
  | clearStatus
  | spinnerTick
  | other
deriving DecidableEq, Repr

/-- The commands a step hands to the runtime. `fetchPosts` carries the query and page
the closure of `fetchPostsCmd` reads; `preview` is `downloadAndRenderImage` with the
image URL and pane width it was given (the heights it also receives are measured on
rendered bars by the styling toolkit and are not represented); `cancelPreview` records
the call `m.cancelPreview()` that `triggerPreviewUpdate` makes on the previous request.
Commands returned by the widgets themselves are not represented. -/
inductive Cmd where
  | fetchPosts (query : String) (page : Int)
  | spinnerTick
  | clearScreen
  | blink
  | quit
  | copyToClipboard (text : String)
  | clearStatus (seconds : Nat)
  | cancelPreview
  | preview (imageURL : String) (w : Int)
deriving DecidableEq, Repr

/-! ## The toolkit -/

/-- What the `bubbles` widgets decide on their own. -/
structure Bubbles where
  /-- The value of a focused text input after `textinput.Update`. -/
  textinputEdit : String → Msg → String
  /-- The value stored by `textinput.SetValue`. -/
  textinputSetValue : String → String
  /-- The scroll offset of a viewport after `viewport.Update`, from content and offset. -/
  viewportScroll : String → Int → Msg → Int
  /-- The scroll offset of a viewport after `SetContent`, from new content and offset. -/
  viewportSetContent : String → Int → Int
  /-- The rendering of a spinner frame by `spinner.View`. -/
  spinnerView : Nat → String
  /-- The spinner frame after `spinner.Update`. -/
  spinnerUpdate : Nat → Nat

/-- A toolkit instance for evaluation: the text input appends a typed character,
viewports do not scroll, the spinner has the eight frames of `spinner.Dot`. -/
def Bubbles.basic : Bubbles where
  textinputEdit := fun v msg => match msg with
    | .key s => if s.length = 1 then v ++ s else v
    | _ => v
  textinputSetValue := fun s => s
  viewportScroll := fun _ y _ => y
  viewportSetContent := fun _ y => y
  spinnerView := fun _ => "*"
  spinnerUpdate := fun n => (n + 1) % 8

/-- The state of a `textinput.Model` that the source uses: its value and focus. -/
structure textinputModel where
  value : String
  focus : Bool
deriving DecidableEq, Repr

def textinputModel.Focus (t : textinputModel) : textinputModel := { t with focus := true }

def textinputModel.Blur (t : textinputModel) : textinputModel := { t with focus := false }

def textinputModel.SetValue (B : Bubbles) (t : textinputModel) (s : String) : textinputModel :=
  { t with value := B.textinputSetValue s }

/-- The widget ignores every message while it is not focused. -/
def textinputModel.Update (B : Bubbles) (t : textinputModel) (msg : Msg) : textinputModel :=
  if t.focus then { t with value := B.textinputEdit t.value msg } else t

/-- The state of a `viewport.Model` that the source uses: content and scroll offset. -/
structure viewportModel where
  content : String
  YOffset : Int
deriving DecidableEq, Repr

def viewportModel.SetContent (B : Bubbles) (v : viewportModel) (s : String) : viewportModel :=
  { content := s, YOffset := B.viewportSetContent s v.YOffset }

def viewportModel.GotoTop (v : viewportModel) : viewportModel := { v with YOffset := 0 }

def viewportModel.Update (B : Bubbles) (v : viewportModel) (msg : Msg) : viewportModel :=
  { v with YOffset := B.viewportScroll v.content v.YOffset msg }

/-- The state of a `table.Model`: columns (title and width), rows, cursor, focus and
the height of its inner viewport, by which the page keys move (20 rows from `table.New`;
`View` sets sizes on a copy of the model only). -/
structure tableModel where
  cols : List (String × Int)
  rows : List (List String)
  cursor : Int
  focus : Bool
  height : Int
deriving DecidableEq, Repr

/-- The helper `clamp` of the table widget: `min(max(v, low), high)`. -/
def clamp (v low high : Int) : Int := min (max v low) high

def tableModel.Cursor (t : tableModel) : Int := t.cursor

def tableModel.SetColumns (t : tableModel) (c : List (String × Int)) : tableModel :=
  { t with cols := c }

/-- The widget stores the new rows and keeps its cursor: this is the `SetRows` that the
guard `Cursor() >= len(m.posts)` of `triggerPreviewUpdate` is written for; a release of
the widget whose `SetRows` moves the cursor is not what is modelled here. -/
def tableModel.SetRows (t : tableModel) (r : List (List String)) : tableModel :=
  { t with rows := r }

def tableModel.SetCursor (t : tableModel) (n : Int) : tableModel :=
  { t with cursor := clamp n 0 ((t.rows.length : Int) - 1) }

def tableModel.MoveUp (t : tableModel) (n : Int) : tableModel :=
  { t with cursor := clamp (t.cursor - n) 0 ((t.rows.length : Int) - 1) }

def tableModel.MoveDown (t : tableModel) (n : Int) : tableModel :=
  { t with cursor := clamp (t.cursor + n) 0 ((t.rows.length : Int) - 1) }

def tableModel.GotoTop (t : tableModel) : tableModel := t.MoveUp t.cursor

def tableModel.GotoBottom (t : tableModel) : tableModel := t.MoveDown (t.rows.length : Int)

/-- The default key map of the table, applied by `table.Update` to a focused table. -/
def tableModel.Update (t : tableModel) (msg : Msg) : tableModel :=
  if t.focus = false then t
  else match msg with
    | .key s =>
      if s = "up" ∨ s = "k" then t.MoveUp 1
      else if s = "down" ∨ s = "j" then t.MoveDown 1
      else if s = "b" ∨ s = "pgup" then t.MoveUp t.height
      else if s = "f" ∨ s = "pgdown" ∨ s = " " then t.MoveDown t.height
      else if s = "u" ∨ s = "ctrl+u" then t.MoveUp (Int.tdiv t.height 2)
      else if s = "d" ∨ s = "ctrl+d" then t.MoveDown (Int.tdiv t.height 2)
      else if s = "home" ∨ s = "g" then t.GotoTop
      else if s = "end" ∨ s = "G" then t.GotoBottom
      else t
    | _ => t

def fullTableColumns : List (String × Int) := [("ID", 7), ("Artist", 22), ("Score", 6)]

def miniTableColumns : List (String × Int) := [("ID", 7), ("Score", 6)]

/-! ## The model -/

/-- The struct `model`. `cancelPreview` records whether a cancel function is stored;
`httpClient` is fixed at creation and not represented; `spinner` is the frame index. -/
structure model where
  cancelPreview : Bool
  err : Option String
  loading : Bool
  onEntranceScreen : Bool
  posts : List Post
  previewViewport : viewportModel
  query : String
  quitting : Bool
  searchBox : textinputModel
  selectedButton : Int
  showFullImage : Bool
  spinner : Nat
  statusMessage : String
  postTable : tableModel
  tagViewport : viewportModel
  showTags : Bool
  currentTags : String
  currentPage : Int
  jumpToPostID : Int
  width : Int
  height : Int
deriving DecidableEq, Repr

/-- The function `strconv.Itoa`, also the verb `%d` of `fmt.Sprintf`. -/
def Itoa (i : Int) : String := toString i

/-- Go slice indexing `xs[i]`: out of range is a panic. -/
def goIndex {α : Type} (xs : List α) (i : Int) : Option α :=
  if i < 0 then none else xs[i.toNat]?

def getDisplayURL (m : model) (p : Post) : String :=
  if m.showFullImage then p.File.URL
  else if p.Sample.Has ∧ p.Sample.URL ≠ "" then p.Sample.URL
  else p.File.URL

/-- How the download step of a preview task ends. -/
inductive DownloadOutcome where
  | ok
  | canceled
  | failed
deriving DecidableEq, Repr

/-- How the renderer process of a preview task ends: its combined output, or a failure
with the context cancelled or not. -/
inductive RenderOutcome where
  | ok (img : String)
  | failedCanceled
  | failed
deriving DecidableEq, Repr

/-- The body of the command built by `downloadAndRenderImage`, as a function of what
the download and the renderer do. `none` is the `nil` message, which the runtime drops. -/
def downloadAndRenderImage (imageURL : String) (dl : DownloadOutcome) (r : RenderOutcome) :
    Option Msg :=
  if imageURL = "" then some (.previewLoaded "No image URL available.")
  else match dl with
    | .canceled => none
    | .failed => some (.previewLoaded "\n\n⚠️\n\nPreview failed to load")
    | .ok =>
      match r with
      | .failedCanceled => none
      | .failed => some (.previewLoaded "\n\n⚠️\n\nPreview failed to load")
      | .ok img => some (.previewLoaded ("\x1b[s" ++ img ++ "\x1b[u"))

def initialModel : model where
  cancelPreview := false
  err := none
  loading := false
  onEntranceScreen := true
  posts := []
  previewViewport := { content := "", YOffset := 0 }
  query := ""
  quitting := false
  searchBox := { value := "", focus := true }
  selectedButton := 0
  showFullImage := false
  spinner := 0
  statusMessage := ""
  postTable := { cols := fullTableColumns, rows := [], cursor := 0, focus := true, height := 20 }
  tagViewport := { content := "", YOffset := 0 }
  showTags := false
  currentTags := ""
  currentPage := 1
  jumpToPostID := 0
  width := 0
  height := 0

/-- The model a session starts from: `teaHandler` seeds the terminal size. -/
def teaHandler (Width Height : Int) : model :=
  { initialModel with width := Width, height := Height }

/-- The startup check of `Init`: the message its command yields, from whether
`exec.LookPath("kitty")` succeeds. -/
def Init (kittyFound : Bool) : Option Msg :=
  if kittyFound then none
  else some (.error "'kitty' command not found in your PATH. Required for image previews")

def triggerPreviewUpdate (B : Bubbles) (m : model) : Option (model × List Cmd) :=
  if m.postTable.Cursor ≥ (m.posts.length : Int) then some (m, [])
  else
    match goIndex m.posts m.postTable.Cursor with
    | none => none
    | some selectedPost =>
      let allTags := selectedPost.Tags.General ++ selectedPost.Tags.Species ++
        selectedPost.Tags.Character ++ selectedPost.Tags.Copyright ++ selectedPost.Tags.Artist
      let m := { m with currentTags := ", ".intercalate allTags }
      let cancel := if m.cancelPreview then [Cmd.cancelPreview] else []
      let m := { m with cancelPreview := true }
      let m := { m with previewViewport :=
        m.previewViewport.SetContent B (B.spinnerView m.spinner ++ " Loading preview...") }
      let previewPaneWidth := Int.tdiv (m.width * 3) 4
      let displayURL := getDisplayURL m selectedPost
      some (m, cancel ++ [Cmd.clearScreen, Cmd.spinnerTick, Cmd.preview displayURL previewPaneWidth])

/-- The shortcut query of the selected button: "Latest" is the empty query, "Popular"
is the query `order:rank`. -/
def applyButton (B : Bubbles) (m : model) : model :=
  if m.selectedButton = 0
  then { m with searchBox := m.searchBox.SetValue B "", query := "" }
  else { m with searchBox := m.searchBox.SetValue B "order:rank", query := "order:rank" }

/-- The answer keys of the quit prompt in `updateEntrance`: `y` quits, `n` and `esc`
close the prompt; any other key is not handled here (`none`) and falls through. -/
def entranceQuitPrompt (m : model) (s : String) : Option (model × List Cmd) :=
  if m.quitting then
    if s = "y" ∨ s = "Y" then some (m, [Cmd.quit])
    else if s = "n" ∨ s = "N" ∨ s = "esc" then some ({ m with quitting := false }, [])
    else none
  else none

/-- The keys of `updateEntrance` while the search box is focused; `none` when the key
falls through to the text input. -/
def entranceSearchKeys (m : model) (s : String) : Option (model × List Cmd) :=
  if s = "enter" then
    let m := { m with query := m.searchBox.value, currentPage := 1,
                      onEntranceScreen := false, loading := true,
                      searchBox := m.searchBox.Blur }
    some (m, [Cmd.fetchPosts m.query m.currentPage, Cmd.spinnerTick])
  else if s = "tab" then some ({ m with searchBox := m.searchBox.Blur }, [])
  else if s = "esc" ∨ s = "ctrl+c" then some ({ m with quitting := true, currentPage := 1 }, [])
  else none

/-- The keys of `updateEntrance` while the buttons are focused; `none` when the key
falls through to the text input. -/
def entranceButtonKeys (B : Bubbles) (m : model) (s : String) : Option (model × List Cmd) :=
  if s = "enter" then
    let m := applyButton B m
    let m := { m with onEntranceScreen := false, loading := true }
    some (m, [Cmd.fetchPosts m.query m.currentPage, Cmd.spinnerTick])
  else if s = "tab" then some ({ m with searchBox := m.searchBox.Focus }, [Cmd.blink])
  else if s = "left" ∨ s = "h" then some ({ m with selectedButton := 0 }, [])
  else if s = "right" ∨ s = "l" then some ({ m with selectedButton := 1 }, [])
  else if s = "q" ∨ s = "esc" ∨ s = "ctrl+c" then some ({ m with quitting := true }, [])
  else none

/-- The method `updateEntrance`. A message that no case returns on reaches the last
lines, where the text input sees it. -/
def updateEntrance (B : Bubbles) (m : model) (msg : Msg) : model × List Cmd :=
  let passOn : model × List Cmd := ({ m with searchBox := m.searchBox.Update B msg }, [])
  match msg with
  | .windowSize w h => ({ m with width := w, height := h }, [])
  | .key s =>
    match entranceQuitPrompt m s with
    | some r => r
    | none =>
      match (if m.searchBox.focus then entranceSearchKeys m s else entranceButtonKeys B m s) with
      | some r => r
      | none => passOn
  | _ => passOn

/-- One table row per post, as the loop of the `postsFetchedMsg` case builds it. -/
def postRow (isMiniTable : Bool) (post : Post) : List String :=
  let scoreStr := Itoa post.Score.Total
  if isMiniTable then [Itoa post.ID, scoreStr]
  else
    let artists := ", ".intercalate post.Tags.Artist
    let artists := if artists = "" then "unknown" else artists
    [Itoa post.ID, artists, scoreStr]

/-- The loop that relocates the cursor: the first post whose ID is `jump`, at index `i`
counted from the start of the slice, receives the cursor; the loop then breaks. -/
def jumpLoop (jump : Int) (t : tableModel) : Nat → List Post → tableModel
  | _, [] => t
  | i, post :: rest =>
    if post.ID = jump then t.SetCursor (i : Int) else jumpLoop jump t (i + 1) rest

/-- The tail of `Update`: the preview viewport sees the message, the commands are batched. -/
def finishUpdate (B : Bubbles) (m : model) (msg : Msg) (cmds : List Cmd) :
    Option (model × List Cmd) :=
  some ({ m with previewViewport := m.previewViewport.Update B msg }, cmds)

/-- The state changes shared by refresh, page change and pool navigation: results,
table rows and preview are cleared. -/
def clearResults (B : Bubbles) (m : model) : model :=
  { m with posts := [], postTable := m.postTable.SetRows [],
           previewViewport := m.previewViewport.SetContent B "" }

/-- The pending jump of the `postsFetchedMsg` case: when `jumpToPostID` is set, the
cursor is relocated by `jumpLoop` and the pending id is reset. -/
def relocateCursor (m : model) : model :=
  if m.jumpToPostID ≠ 0
  then { m with postTable := jumpLoop m.jumpToPostID m.postTable 0 m.posts, jumpToPostID := 0 }
  else m

/-- The page step of the keys `h` and `left`. -/
def pageLeft (m : model) : model :=
  if m.currentPage > 1 ∧ m.loading = false
  then { m with currentPage := m.currentPage - 1 } else m

/-- The page step of the keys `l` and `right`. -/
def pageRight (m : model) : model :=
  if m.currentPage < 750 ∧ m.loading = false
  then { m with currentPage := m.currentPage + 1 } else m

/-- The first lines of the `postsFetchedMsg` case: the results are stored, the table
layout (narrow or wide) is chosen from the width, and the table receives one row per
post. -/
def storeResults (m : model) (posts : List Post) : model :=
  let m := { m with loading := false, posts := posts, showTags := false }
  let isMiniTable : Bool := decide (Int.tdiv (m.width * 1) 4 - 4 < 42)
  let m := { m with postTable :=
    m.postTable.SetColumns (if isMiniTable then miniTableColumns else fullTableColumns) }
  let rows := m.posts.map (postRow isMiniTable)
  { m with postTable := m.postTable.SetRows rows }

/-- The case `postsFetchedMsg` of `Update`. -/
def UpdatePostsFetched (B : Bubbles) (m : model) (posts : List Post) :
    Option (model × List Cmd) :=
  let msg := Msg.postsFetched posts
  let m := storeResults m posts
  let m := relocateCursor m
  if m.posts.length > 0 then
    match triggerPreviewUpdate B m with
    | none => none
    | some (m, c) => finishUpdate B m msg c
  else
    finishUpdate B { m with previewViewport :=
      m.previewViewport.SetContent B "\nNo results found for your query." } msg []

/-- The case `tea.KeyMsg` of `Update` while the search box is focused. -/
def UpdateKeyFocused (B : Bubbles) (m : model) (s : String) : Option (model × List Cmd) :=
  let msg := Msg.key s
  if s = "enter" then
    let m := { m with query := m.searchBox.value, loading := true,
                      searchBox := m.searchBox.Blur }
    let m := clearResults B m
    finishUpdate B m msg [Cmd.fetchPosts m.query m.currentPage, Cmd.spinnerTick]
  else if s = "esc" then finishUpdate B { m with searchBox := m.searchBox.Blur } msg []
  else finishUpdate B { m with searchBox := m.searchBox.Update B msg } msg []

/-- The key `p` of `Update`: pool navigation from the selected post. -/
def UpdateKeyPool (B : Bubbles) (m : model) : Option (model × List Cmd) :=
  let msg := Msg.key "p"
  if m.loading = false ∧ m.posts.length > 0 ∧ m.postTable.Cursor < (m.posts.length : Int) then
    match goIndex m.posts m.postTable.Cursor with
    | none => none
    | some selectedPost =>
      match selectedPost.Pools with
      | [] => finishUpdate B m msg []
      | poolID :: _ =>
        let newQuery := "pool:" ++ Itoa poolID
        if m.query ≠ newQuery then
          let m := { m with jumpToPostID := selectedPost.ID, query := newQuery }
          let m := { m with searchBox := m.searchBox.SetValue B m.query,
                            currentPage := 1, loading := true }
          let m := clearResults B m
          finishUpdate B m msg
            [Cmd.fetchPosts m.query m.currentPage, Cmd.spinnerTick, Cmd.clearScreen]
        else finishUpdate B m msg []
  else finishUpdate B m msg []

/-- The default key case of `Update`: the table moves its cursor, and a moved cursor
over a non-empty result list requests a new preview. -/
def UpdateKeyTable (B : Bubbles) (m : model) (s : String) : Option (model × List Cmd) :=
  let msg := Msg.key s
  if m.loading = false then
    let originalCursor := m.postTable.Cursor
    let m := { m with postTable := m.postTable.Update msg }
    if originalCursor ≠ m.postTable.Cursor ∧ m.posts.length > 0 then
      match triggerPreviewUpdate B m with
      | none => none
      | some (m, c) => finishUpdate B m msg c
    else finishUpdate B m msg []
  else finishUpdate B m msg []

/-- The keys `q` and `esc` of `Update`: back to the entrance menu, the edit buffer
pre-filled with the query. -/
def UpdateKeyBack (B : Bubbles) (m : model) : Option (model × List Cmd) :=
  let m := { m with onEntranceScreen := true }
  let m := clearResults B m
  let m := { m with searchBox := (m.searchBox.SetValue B m.query).Focus }
  some (m, [Cmd.blink, Cmd.clearScreen])

/-- The key `c` of `Update`: copy the link of the selected post. -/
def UpdateKeyCopy (B : Bubbles) (m : model) : Option (model × List Cmd) :=
  let msg := Msg.key "c"
  if m.posts.length > 0 ∧ m.postTable.Cursor < (m.posts.length : Int) then
    match goIndex m.posts m.postTable.Cursor with
    | none => none
    | some selectedPost =>
      finishUpdate B { m with statusMessage := "Copied link to clipboard!" } msg
        [Cmd.copyToClipboard selectedPost.File.URL, Cmd.clearStatus 2]
  else finishUpdate B m msg []

/-- The key `r` of `Update`: refresh. -/
def UpdateKeyRefresh (B : Bubbles) (m : model) : Option (model × List Cmd) :=
  let m := clearResults B { m with loading := true }
  finishUpdate B m (Msg.key "r")
    [Cmd.fetchPosts m.query m.currentPage, Cmd.spinnerTick, Cmd.clearScreen]

/-- The key `e` of `Update`: toggle between the full image and the sample. -/
def UpdateKeyFullImage (B : Bubbles) (m : model) : Option (model × List Cmd) :=
  let msg := Msg.key "e"
  let m := { m with showFullImage := !m.showFullImage }
  if m.posts.length > 0 then
    match triggerPreviewUpdate B m with
    | none => none
    | some (m, c) => finishUpdate B m msg c
  else finishUpdate B m msg []

/-- The key `t` of `Update`: toggle the tag popup. -/
def UpdateKeyTags (B : Bubbles) (m : model) : Option (model × List Cmd) :=
  let msg := Msg.key "t"
  if m.posts.length > 0 then finishUpdate B { m with showTags := !m.showTags } msg []
  else finishUpdate B m msg []

/-- The keys `h` and `left` of `Update`: previous page. -/
def UpdateKeyPageLeft (B : Bubbles) (m : model) (s : String) : Option (model × List Cmd) :=
  let m := pageLeft m
  let m := clearResults B { m with loading := true }
  finishUpdate B m (Msg.key s)
    [Cmd.fetchPosts m.query m.currentPage, Cmd.spinnerTick, Cmd.clearScreen]

/-- The keys `l` and `right` of `Update`: next page. -/
def UpdateKeyPageRight (B : Bubbles) (m : model) (s : String) : Option (model × List Cmd) :=
  let m := pageRight m
  let m := clearResults B { m with loading := true }
  finishUpdate B m (Msg.key s)
    [Cmd.fetchPosts m.query m.currentPage, Cmd.spinnerTick, Cmd.clearScreen]

/-- The case `tea.KeyMsg` of `Update` while the search box is not focused: the switch
over the key bindings, in the order of the source. -/
def UpdateKeyUnfocused (B : Bubbles) (m : model) (s : String) : Option (model × List Cmd) :=
  if s = "q" ∨ s = "esc" then UpdateKeyBack B m
  else if s = "c" then UpdateKeyCopy B m
  else if s = "/" then
    finishUpdate B { m with searchBox := m.searchBox.Focus } (Msg.key s) [Cmd.blink]
  else if s = "r" then UpdateKeyRefresh B m
  else if s = "e" then UpdateKeyFullImage B m
  else if s = "p" then UpdateKeyPool B m
  else if s = "t" then UpdateKeyTags B m
  else if s = "h" ∨ s = "left" then UpdateKeyPageLeft B m s
  else if s = "l" ∨ s = "right" then UpdateKeyPageRight B m s
  else UpdateKeyTable B m s

/-- The type switch of `Update`, reached when neither the entrance screen nor the tag
popup takes the message. -/
def UpdateBrowsing (B : Bubbles) (m : model) (msg : Msg) : Option (model × List Cmd) :=
  match msg with
  | .windowSize w h => finishUpdate B { m with width := w - 2, height := h } msg []
  | .postsFetched posts => UpdatePostsFetched B m posts
  | .previewLoaded content =>
    finishUpdate B { m with previewViewport :=
      (m.previewViewport.SetContent B content).GotoTop } msg []
  | .error err => finishUpdate B { m with err := some err } msg []
  | .clearStatus => finishUpdate B { m with statusMessage := "" } msg []
  | .spinnerTick =>
    if m.loading then some ({ m with spinner := B.spinnerUpdate m.spinner }, [Cmd.spinnerTick])
    else some (m, [])
  | .key s => if m.searchBox.focus then UpdateKeyFocused B m s else UpdateKeyUnfocused B m s
  | .other => finishUpdate B m msg []

/-- The method `Update`: the entrance screen and the open tag popup take every message;
otherwise the type switch applies. -/
def Update (B : Bubbles) (m : model) (msg : Msg) : Option (model × List Cmd) :=
  if m.onEntranceScreen then some (updateEntrance B m msg)
  else if m.showTags then
    if msg = Msg.key "t" ∨ msg = Msg.key "esc" then some ({ m with showTags := false }, [])
    else some ({ m with tagViewport := m.tagViewport.Update B msg }, [])
  else UpdateBrowsing B m msg

/-- The event loop: messages are applied one at a time in arrival order; the commands
of all steps are collected. A panic ends the program (`none`). -/
def runLoop (B : Bubbles) : model → List Msg → Option (model × List Cmd)
  | m, [] => some (m, [])
  | m, msg :: rest =>
    match Update B m msg with
    | none => none
    | some (m1, c) =>
      match runLoop B m1 rest with
      | none => none
      | some (m2, cs) => some (m2, c ++ cs)

/-- The state after a sequence of messages, when no step panics. -/
def run (B : Bubbles) (m : model) (msgs : List Msg) : Option model :=
  (runLoop B m msgs).map Prod.fst

/-! ## Notions of the specification -/

/-- A completed preview task as the specification describes it: the generation of the
request that started it, and the content it produced. -/
structure PreviewResult where
  generation : Nat
  content : String
deriving DecidableEq, Repr

/-- The message a completed preview task delivers to `Update`. The type
`previewLoadedMsg` has the single field `content`; no generation travels with it. -/
def PreviewResult.toMsg (r : PreviewResult) : Msg := Msg.previewLoaded r.content

/-- The number of preview requests among the commands issued so far, which is the
generation of the most recent request. -/
def previewGeneration (cmds : List Cmd) : Nat :=
  cmds.countP (fun c => match c with
    | Cmd.preview _ _ => true
    | _ => false)

/-- A post with the given id, pools, full-resolution URL and sample, for evaluation. -/
def samplePost (id : Int) (pools : List Int) (fileURL sampleURL : String) (has : Bool) : Post where
  ID := id
  Pools := pools
  Score := { Total := 0 }
  Rating := "s"
  Tags := { General := ["fur"], Species := ["wolf"], Character := [], Copyright := [],
            Artist := ["ann"], Invalid := [], Lore := [], Meta := ["hi_res"] }
  File := { URL := fileURL, Width := 100, Height := 100 }
  Sample := { URL := sampleURL, Has := has }

/-- The two posts of the end-to-end scenario of the specification: ids 101 and 102, the
second one in pool 55. -/
def wolfPosts : List Post :=
  [samplePost 101 [] "f101" "s101" true, samplePost 102 [55] "f102" "" false]

/-- A session that searched `wolf`, received `wolfPosts` and moved the cursor down and
up again: three preview requests have been issued. -/
def threePreviews : List Msg :=
  [Msg.key "w", Msg.key "o", Msg.key "l", Msg.key "f", Msg.key "enter",
   Msg.postsFetched wolfPosts, Msg.key "down", Msg.key "up"]

/-- The messages of a session that searches `wolf` and receives `wolfPosts`. -/
def wolfSearch : List Msg :=
  [Msg.key "w", Msg.key "o", Msg.key "l", Msg.key "f", Msg.key "enter",
   Msg.postsFetched wolfPosts]

/-- The state of that session: Browsing, page 1, two results, the cursor on the first,
the first preview requested. -/
def wolfResults : model :=
  { teaHandler 80 24 with
    cancelPreview := true
    onEntranceScreen := false
    posts := wolfPosts
    previewViewport := { content := "* Loading preview...", YOffset := 0 }
    query := "wolf"
    searchBox := { value := "wolf", focus := false }
    postTable := { cols := miniTableColumns,
                   rows := [["101", "0"], ["102", "0"]],
                   cursor := 0, focus := true, height := 20 }
    currentTags := "fur, wolf, ann" }

/-- The page a step can leave, from the page `p` it starts at. -/
def PageStep (p q : Int) : Prop :=
  q = p ∨ q = 1 ∨ (q = p - 1 ∧ 1 < p) ∨ (q = p + 1 ∧ p < 750)

/-- What ties the table to the results in the initial model and after every step: one
row per post, and a focused table. -/
def TableInv (m : model) : Prop :=
  m.postTable.rows.length = m.posts.length ∧ m.postTable.focus = true

/-- The keys of the default key map of the table: line, page and half-page moves, top
and bottom. -/
def tableKeys : List String :=
  ["up", "k", "down", "j", "b", "pgup", "f", "pgdown", " ", "u", "ctrl+u", "d", "ctrl+d",
   "home", "g", "end", "G"]

/-- The state `m` with the error field replaced. -/
def withErr (e : Option String) (m : model) : model := { m with err := e }

/-- The session of `wolfSearch` after a failed request reported the error `boom`. -/
def wolfFailed : model := withErr (some "boom") wolfResults

/-- The message of the startup check when the renderer is not found. -/
def kittyMissing : String :=
  "'kitty' command not found in your PATH. Required for image previews"

/-- The session of `wolfSearch` after the cursor moved down to the second result, post
102 of pool 55; the query is still `wolf`. -/
def wolfSecondSelected : model :=
  (run Bubbles.basic (teaHandler 80 24) (wolfSearch ++ [Msg.key "down"])).getD initialModel

/-- The session of `wolfSearch` after the cursor moved to the second result and the
pool-view key was pressed: the fetch of `pool:55` is outstanding, post 102 remembered. -/
def wolfPoolPending : model :=
  (run Bubbles.basic (teaHandler 80 24) (wolfSearch ++ [Msg.key "down", Msg.key "p"])).getD
    initialModel

/-- The session of `wolfSearch` after pool navigation from the second result, with the
pool's results (again `wolfPosts`) shown and the cursor relocated to post 102. -/
def wolfPoolShown : model :=
  (run Bubbles.basic (teaHandler 80 24)
    (wolfSearch ++ [Msg.key "down", Msg.key "p", Msg.postsFetched wolfPosts])).getD initialModel

/-- The session of `wolfSearch` on page 2 with the cursor on the second result and the
filter box focused on the buffer `wolffox`. -/
def wolfFilterEdit : model :=
  (run Bubbles.basic (teaHandler 80 24)
    (wolfSearch ++ [Msg.key "l", Msg.postsFetched wolfPosts, Msg.key "down", Msg.key "/",
      Msg.key "f", Msg.key "o", Msg.key "x"])).getD initialModel

/-- The session of `wolfSearch` back on the entrance menu, left with the cursor on the
second result. -/
def wolfBackAtMenu : model :=
  (run Bubbles.basic (teaHandler 80 24) (wolfSearch ++ [Msg.key "down", Msg.key "q"])).getD
    initialModel

/-- What holds in every reachable state while the tag popup is open: there are results
and the session is not on the entrance screen. -/
def TagsInv (m : model) : Prop :=
  m.showTags = true → m.posts ≠ [] ∧ m.onEntranceScreen = false

/-- The session of `wolfSearch` with the tag popup opened over the two results. -/
def wolfTagsOpen : model :=
  (run Bubbles.basic (teaHandler 80 24) (wolfSearch ++ [Msg.key "t"])).getD initialModel

/-! ## The status bar and the filter scan of `styledQueryText` -/

/-- The method `statusBarView`, up to the final `statusBar.Render`: the status text.
`styledQueryText` is the rendering of the filter box, which the styling toolkit
produces. -/
def statusBarView (styledQueryText : String) (m : model) : Option String :=
  if m.showTags then some "t/esc: close tags popup"
  else if m.searchBox.focus then some ("Filter: " ++ styledQueryText)
  else if m.statusMessage ≠ "" then some m.statusMessage
  else
    let imageModeText := if m.showFullImage then "[full]/sample" else "full/[sample]"
    let statusText := "↑/↓: nav | c: copy url | /: filter | r: refresh | e: " ++ imageModeText ++
      " | t: show tags popup"
    if m.loading = false ∧ m.posts.length > 0 ∧ m.postTable.Cursor < (m.posts.length : Int) then
      match goIndex m.posts m.postTable.Cursor with
      | none => none
      | some selectedPost =>
        let statusText := if selectedPost.Pools.length > 0
          then statusText ++ " | p: view pool" else statusText
        some (statusText ++ " | esc: back to menu")
    else some (statusText ++ " | esc: back to menu")

/-- The class `\s` of the Go regular expression syntax: tab, newline, form feed,
carriage return and space. The class `\S` is its complement. -/
def isSpace (c : Char) : Bool :=
  c = Char.ofNat 9 || c = Char.ofNat 10 || c = Char.ofNat 12 || c = Char.ofNat 13 ||
    c = Char.ofNat 32

/-- The greedy `\S*` at the start of a text: the longest prefix without whitespace. -/
def nonSpaceRun (cs : List Char) : List Char := cs.takeWhile (fun c => !isSpace c)

/-- The number of bytes of the UTF-8 encoding of a text: match positions are byte
offsets. -/
def utf8Len (cs : List Char) : Nat := (cs.map Char.utf8Size).sum

/-- The part `(?P<key>\S*):` of `filterRegex` matched at the start of a text, by
backtracking: the greedy star first takes the next character if it is not whitespace and
tries the rest of the pattern; when that fails it gives the character back, and the colon
has to be here. The result is the key and the text after the colon. -/
def matchKey : List Char → Option (List Char × List Char)
  | [] => none
  | c :: cs =>
    if isSpace c then none
    else
      match matchKey cs with
      | some (key, rest) => some (c :: key, rest)
      | none => if c = ':' then some ([], cs) else none

/-- The pattern `(?P<key>\S*):(?P<value>\S*)` matched at the start of a text: the key
and the value, which is the greedy `\S*` after the colon. -/
def matchHere (cs : List Char) : Option (List Char × List Char) :=
  match matchKey cs with
  | none => none
  | some (key, rest) => some (key, nonSpaceRun rest)

/-- One element of the result of `FindAllStringSubmatchIndex`: the byte offsets of the
whole match and of the groups `key` and `value`. -/
structure Submatch where
  start : Nat
  stop : Nat
  keyStart : Nat
  keyEnd : Nat
  valueStart : Nat
  valueEnd : Nat
deriving DecidableEq, Repr

/-- The match of a key and a value found at byte offset `pos`. -/
def Submatch.ofGroups (pos : Nat) (key value : List Char) : Submatch where
  start := pos
  stop := pos + utf8Len key + 1 + utf8Len value
  keyStart := pos
  keyEnd := pos + utf8Len key
  valueStart := pos + utf8Len key + 1
  valueEnd := pos + utf8Len key + 1 + utf8Len value

/-- The successive leftmost matches of `filterRegex` in a text that starts at byte
offset `pos`. The search tries each position in turn; after a match it resumes at the
end of the match: `skip` counts the characters of the last match that are still ahead. -/
def findAllFrom : Nat → Nat → List Char → List Submatch
  | _, _, [] => []
  | skip + 1, pos, c :: rest => findAllFrom skip (pos + c.utf8Size) rest
  | 0, pos, c :: rest =>
    match matchHere (c :: rest) with
    | some (key, value) =>
      Submatch.ofGroups pos key value ::
        findAllFrom (key.length + value.length) (pos + c.utf8Size) rest
    | none => findAllFrom 0 (pos + c.utf8Size) rest

/-- The call `filterRegex.FindAllStringSubmatchIndex(val, -1)`. -/
def FindAllStringSubmatchIndex (val : String) : List Submatch := findAllFrom 0 0 val.toList

/-- The two styles `styledQueryText` puts into its style map; a byte without an entry
is drawn in `defaultTextStyle`. -/
inductive Style where
  | keyStyle
  | valueStyle
deriving DecidableEq, Repr

/-- One round of the loops by which `styledQueryText` fills its style map, seen from
byte offset `i`: the bytes of the key group are set to `keyStyle`, then the bytes of the
value group to `valueStyle`; other bytes keep their entry. -/
def setStyles (i : Nat) (entry : Option Style) (loc : Submatch) : Option Style :=
  if loc.valueStart ≤ i ∧ i < loc.valueEnd then some Style.valueStyle
  else if loc.keyStart ≤ i ∧ i < loc.keyEnd then some Style.keyStyle
  else entry

/-- The style map of `styledQueryText` after the loop over all matches, read at byte
offset `i`; `none` is a byte without an entry. -/
def styleMap (val : String) (i : Nat) : Option Style :=
  (FindAllStringSubmatchIndex val).foldl (setStyles i) none

/-! ## The filter tokens of the specification -/

/-- A token split at its last colon: what precedes it and what follows it. -/
def splitLastColon : List Char → Option (List Char × List Char)
  | [] => none
  | c :: cs =>
    match splitLastColon cs with
    | some (key, value) => some (c :: key, value)
    | none => if c = ':' then some ([], cs) else none

/-- The key and value spans as the specification describes them, token by token: the
text is cut into whitespace-delimited tokens, and each token that contains a colon gives
one pair, split at the token's last colon. `skip` counts the characters of the current
token that are still ahead. -/
def tokenSpansFrom : Nat → Nat → List Char → List Submatch
  | _, _, [] => []
  | skip + 1, pos, c :: rest => tokenSpansFrom skip (pos + c.utf8Size) rest
  | 0, pos, c :: rest =>
    if isSpace c then tokenSpansFrom 0 (pos + c.utf8Size) rest
    else
      match splitLastColon (nonSpaceRun (c :: rest)) with
      | some (key, value) =>
        Submatch.ofGroups pos key value ::
          tokenSpansFrom (nonSpaceRun rest).length (pos + c.utf8Size) rest
      | none => tokenSpansFrom (nonSpaceRun rest).length (pos + c.utf8Size) rest

/-- The key/value tokens of a search text, as the specification describes them. -/
def tokenSpans (val : String) : List Submatch := tokenSpansFrom 0 0 val.toList

/-! ## Steps and runs -/

/-- A property kept by every step holds after every run. -/
theorem runLoop_induction (B : Bubbles) (P : model → Prop)
    (hstep : ∀ m msg r, P m → Update B m msg = some r → P r.1) :
    ∀ (msgs : List Msg) (m : model) (r : model × List Cmd),
      P m → runLoop B m msgs = some r → P r.1 := by
  intro msgs
  induction msgs with
  | nil =>
    intro m r hm h
    simp only [runLoop, Option.some.injEq] at h
    subst h
    exact hm
  | cons msg rest ih =>
    intro m r hm h
    unfold runLoop at h
    split at h
    · cases h
    · rename_i m1 c h1
      split at h
      · cases h
      · rename_i m2 cs h2
        cases h
        exact ih m1 (m2, cs) (hstep m msg (m1, c) hm h1) h2

theorem run_induction (B : Bubbles) (P : model → Prop)
    (hstep : ∀ m msg r, P m → Update B m msg = some r → P r.1)
    (msgs : List Msg) (m m1 : model) (hm : P m) (h : run B m msgs = some m1) : P m1 := by
  unfold run at h
  cases hr : runLoop B m msgs with
  | none => rw [hr] at h; cases h
  | some r =>
    rw [hr] at h
    cases h
    exact runLoop_induction B P hstep msgs m r hm hr

/-! ## The page number -/

/-- What `triggerPreviewUpdate` leaves alone: every field but the tag string, the
stored cancel function and the preview viewport. -/
theorem triggerPreviewUpdate_frame (B : Bubbles) (m : model) (r : model × List Cmd)
    (h : triggerPreviewUpdate B m = some r) :
    r.1.currentPage = m.currentPage ∧ r.1.posts = m.posts ∧ r.1.postTable = m.postTable ∧
      r.1.loading = m.loading ∧ r.1.onEntranceScreen = m.onEntranceScreen ∧
      r.1.quitting = m.quitting ∧ r.1.query = m.query ∧ r.1.err = m.err ∧
      r.1.showTags = m.showTags ∧ r.1.jumpToPostID = m.jumpToPostID ∧
      r.1.searchBox = m.searchBox ∧ r.1.showFullImage = m.showFullImage := by
  unfold triggerPreviewUpdate at h
  split at h
  · cases h; simp
  · split at h
    · cases h
    · cases h; simp

theorem entranceQuitPrompt_page (m : model) (s : String) (r : model × List Cmd)
    (h : entranceQuitPrompt m s = some r) : r.1.currentPage = m.currentPage := by
  unfold entranceQuitPrompt at h
  split_ifs at h <;> cases h <;> rfl

theorem entranceSearchKeys_page (m : model) (s : String) (r : model × List Cmd)
    (h : entranceSearchKeys m s = some r) :
    r.1.currentPage = m.currentPage ∨ r.1.currentPage = 1 := by
  unfold entranceSearchKeys at h
  split_ifs at h <;> cases h <;> simp

@[simp] theorem applyButton_page (B : Bubbles) (m : model) :
    (applyButton B m).currentPage = m.currentPage := by
  unfold applyButton; split <;> rfl

theorem entranceButtonKeys_page (B : Bubbles) (m : model) (s : String) (r : model × List Cmd)
    (h : entranceButtonKeys B m s = some r) : r.1.currentPage = m.currentPage := by
  unfold entranceButtonKeys at h
  split_ifs at h <;> cases h <;> simp

theorem updateEntrance_page (B : Bubbles) (m : model) (msg : Msg) :
    PageStep m.currentPage (updateEntrance B m msg).1.currentPage := by
  unfold updateEntrance PageStep
  cases msg <;> simp only []
  case key s =>
    split
    · rename_i h; exact Or.inl (entranceQuitPrompt_page m s _ h)
    · split
      · rename_i h
        split_ifs at h
        · rcases entranceSearchKeys_page m s _ h with h1 | h1 <;> simp [h1]
        · exact Or.inl (entranceButtonKeys_page B m s _ h)
      · exact Or.inl rfl
  all_goals first | exact Or.inl rfl | simp

@[simp] theorem relocateCursor_page (m : model) :
    (relocateCursor m).currentPage = m.currentPage := by
  unfold relocateCursor; split <;> rfl

theorem UpdatePostsFetched_page (B : Bubbles) (m : model) (posts : List Post)
    (r : model × List Cmd) (h : UpdatePostsFetched B m posts = some r) :
    r.1.currentPage = m.currentPage := by
  unfold UpdatePostsFetched finishUpdate at h
  simp only [] at h
  split_ifs at h
  all_goals first
    | (cases h; simp [storeResults])
    | (split at h
       · cases h
       · rename_i hm
         cases h
         have := (triggerPreviewUpdate_frame B _ _ hm).1
         simpa [storeResults] using this)

theorem UpdateKeyPool_page (B : Bubbles) (m : model)
    (r : model × List Cmd) (h : UpdateKeyPool B m = some r) :
    r.1.currentPage = m.currentPage ∨ r.1.currentPage = 1 := by
  unfold UpdateKeyPool finishUpdate clearResults at h
  simp only [] at h
  (repeat' split at h) <;> cases h <;> simp

theorem UpdateKeyTable_page (B : Bubbles) (m : model) (s : String)
    (r : model × List Cmd) (h : UpdateKeyTable B m s = some r) :
    r.1.currentPage = m.currentPage := by
  unfold UpdateKeyTable finishUpdate at h
  simp only [] at h
  split_ifs at h
  all_goals first
    | (cases h; simp)
    | (split at h
       · cases h
       · rename_i hm
         cases h
         have := (triggerPreviewUpdate_frame B _ _ hm).1
         simpa using this)

theorem UpdateKeyFullImage_page (B : Bubbles) (m : model)
    (r : model × List Cmd) (h : UpdateKeyFullImage B m = some r) :
    r.1.currentPage = m.currentPage := by
  unfold UpdateKeyFullImage finishUpdate at h
  simp only [] at h
  split_ifs at h
  all_goals first
    | (cases h; simp)
    | (split at h
       · cases h
       · rename_i hm
         cases h
         have := (triggerPreviewUpdate_frame B _ _ hm).1
         simpa using this)

theorem UpdateKeyCopy_page (B : Bubbles) (m : model)
    (r : model × List Cmd) (h : UpdateKeyCopy B m = some r) :
    r.1.currentPage = m.currentPage := by
  unfold UpdateKeyCopy finishUpdate at h
  simp only [] at h
  (repeat' split at h) <;> cases h <;> rfl

theorem UpdateKeyPageLeft_page (B : Bubbles) (m : model) (s : String)
    (r : model × List Cmd) (h : UpdateKeyPageLeft B m s = some r) :
    r.1.currentPage = m.currentPage ∨ (r.1.currentPage = m.currentPage - 1 ∧ 1 < m.currentPage) := by
  unfold UpdateKeyPageLeft finishUpdate clearResults pageLeft at h
  cases h
  simp only []
  split_ifs <;> simp_all

theorem UpdateKeyPageRight_page (B : Bubbles) (m : model) (s : String)
    (r : model × List Cmd) (h : UpdateKeyPageRight B m s = some r) :
    r.1.currentPage = m.currentPage ∨
      (r.1.currentPage = m.currentPage + 1 ∧ m.currentPage < 750) := by
  unfold UpdateKeyPageRight finishUpdate clearResults pageRight at h
  cases h
  simp only []
  split_ifs <;> simp_all

theorem UpdateKeyUnfocused_page (B : Bubbles) (m : model) (s : String)
    (r : model × List Cmd) (h : UpdateKeyUnfocused B m s = some r) :
    PageStep m.currentPage r.1.currentPage := by
  unfold UpdateKeyUnfocused at h
  unfold PageStep
  split_ifs at h
  · cases h; exact Or.inl rfl
  · exact Or.inl (UpdateKeyCopy_page B m r h)
  · cases h; exact Or.inl rfl
  · cases h; exact Or.inl rfl
  · exact Or.inl (UpdateKeyFullImage_page B m r h)
  · rcases UpdateKeyPool_page B m r h with h1 | h1 <;> simp [h1]
  · unfold UpdateKeyTags finishUpdate at h
    split_ifs at h <;> cases h <;> exact Or.inl rfl
  · rcases UpdateKeyPageLeft_page B m s r h with h1 | h1 <;> simp [h1]
  · rcases UpdateKeyPageRight_page B m s r h with h1 | h1 <;> simp [h1]
  · exact Or.inl (UpdateKeyTable_page B m s r h)

theorem UpdateKeyFocused_page (B : Bubbles) (m : model) (s : String)
    (r : model × List Cmd) (h : UpdateKeyFocused B m s = some r) :
    r.1.currentPage = m.currentPage := by
  unfold UpdateKeyFocused finishUpdate clearResults at h
  simp only [] at h
  split_ifs at h <;> cases h <;> rfl

theorem UpdateBrowsing_page (B : Bubbles) (m : model) (msg : Msg)
    (r : model × List Cmd) (h : UpdateBrowsing B m msg = some r) :
    PageStep m.currentPage r.1.currentPage := by
  unfold UpdateBrowsing finishUpdate at h
  cases msg <;> simp only [] at h
  case postsFetched posts => exact Or.inl (UpdatePostsFetched_page B m posts r h)
  case key s =>
    split_ifs at h
    · exact Or.inl (UpdateKeyFocused_page B m s r h)
    · exact UpdateKeyUnfocused_page B m s r h
  case spinnerTick => split_ifs at h <;> cases h <;> exact Or.inl rfl
  all_goals (cases h; exact Or.inl rfl)

theorem Update_page (B : Bubbles) (m : model) (msg : Msg)
    (r : model × List Cmd) (h : Update B m msg = some r) :
    PageStep m.currentPage r.1.currentPage := by
  unfold Update at h
  split_ifs at h
  · cases h; exact updateEntrance_page B m msg
  · cases h; exact Or.inl rfl
  · cases h; exact Or.inl rfl
  · exact UpdateBrowsing_page B m msg r h


theorem updateEntrance_page_reset (B : Bubbles) (m : model) (msg : Msg) :
    (updateEntrance B m msg).1.currentPage = m.currentPage ∨
      (updateEntrance B m msg).1.currentPage = 1 := by
  unfold updateEntrance
  cases msg <;> simp only []
  case key s =>
    split
    · rename_i h; exact Or.inl (entranceQuitPrompt_page m s _ h)
    · split
      · rename_i h
        split_ifs at h
        · exact entranceSearchKeys_page m s _ h
        · exact Or.inl (entranceButtonKeys_page B m s _ h)
      · exact Or.inl rfl
  all_goals first | exact Or.inl rfl | simp

theorem UpdateKeyUnfocused_left (B : Bubbles) (m : model) (k : String)
    (hk : k = "h" ∨ k = "left") : UpdateKeyUnfocused B m k = UpdateKeyPageLeft B m k := by
  rcases hk with rfl | rfl <;> simp [UpdateKeyUnfocused]

theorem UpdateKeyUnfocused_right (B : Bubbles) (m : model) (k : String)
    (hk : k = "l" ∨ k = "right") : UpdateKeyUnfocused B m k = UpdateKeyPageRight B m k := by
  rcases hk with rfl | rfl <;> simp [UpdateKeyUnfocused]

/-- The keys `h`, `left`, `l` and `right` never panic. -/
theorem Update_pageKey_total (B : Bubbles) (m : model) (k : String)
    (hk : k = "h" ∨ k = "left" ∨ k = "l" ∨ k = "right") :
    ∃ r, Update B m (Msg.key k) = some r := by
  unfold Update
  split_ifs
  · exact ⟨_, rfl⟩
  · exact ⟨_, rfl⟩
  · exact ⟨_, rfl⟩
  · unfold UpdateBrowsing
    simp only []
    split_ifs
    · unfold UpdateKeyFocused finishUpdate
      simp only []
      split_ifs <;> exact ⟨_, rfl⟩
    · rcases hk with hk | hk | hk | hk
      · rw [UpdateKeyUnfocused_left B m k (Or.inl hk)]; exact ⟨_, rfl⟩
      · rw [UpdateKeyUnfocused_left B m k (Or.inr hk)]; exact ⟨_, rfl⟩
      · rw [UpdateKeyUnfocused_right B m k (Or.inl hk)]; exact ⟨_, rfl⟩
      · rw [UpdateKeyUnfocused_right B m k (Or.inr hk)]; exact ⟨_, rfl⟩

/-- On the entrance screen the page keys leave the page as it is. -/
theorem updateEntrance_pageKey (B : Bubbles) (m : model) (k : String)
    (hk : k = "h" ∨ k = "left" ∨ k = "l" ∨ k = "right") :
    (updateEntrance B m (Msg.key k)).1.currentPage = m.currentPage := by
  have hs : entranceSearchKeys m k = none := by
    rcases hk with rfl | rfl | rfl | rfl <;> simp [entranceSearchKeys]
  unfold updateEntrance
  simp only []
  split
  · rename_i h; exact entranceQuitPrompt_page m k _ h
  · split
    · rename_i h
      split_ifs at h
      · rw [hs] at h; cases h
      · exact entranceButtonKeys_page B m k _ h
    · rfl

/-- The page after a page key is the old page or one step in the direction of the key,
taken only inside the range from 1 to 750. -/
theorem Update_pageKey_step (B : Bubbles) (m : model) (k : String) (r : model × List Cmd)
    (h : Update B m (Msg.key k) = some r) :
    ((k = "h" ∨ k = "left") → r.1.currentPage = m.currentPage ∨
        (r.1.currentPage = m.currentPage - 1 ∧ 1 < m.currentPage)) ∧
    ((k = "l" ∨ k = "right") → r.1.currentPage = m.currentPage ∨
        (r.1.currentPage = m.currentPage + 1 ∧ m.currentPage < 750)) := by
  unfold Update at h
  split_ifs at h
  · cases h
    constructor
    · intro hk; exact Or.inl (updateEntrance_pageKey B m k (by tauto))
    · intro hk; exact Or.inl (updateEntrance_pageKey B m k (by tauto))
  · cases h; simp
  · cases h; simp
  · unfold UpdateBrowsing at h
    simp only [] at h
    split_ifs at h
    · have := UpdateKeyFocused_page B m k r h
      simp [this]
    · constructor
      · intro hk
        rw [UpdateKeyUnfocused_left B m k hk] at h
        exact UpdateKeyPageLeft_page B m k r h
      · intro hk
        rw [UpdateKeyUnfocused_right B m k hk] at h
        exact UpdateKeyPageRight_page B m k r h

/-- C2. In every state reachable from the initial model of a session (any terminal
size, any sequence of messages through `Update`) the page satisfies
`1 ≤ currentPage ≤ 750`; and in such a state a page-left key (`h`, `left`) pressed at
page 1 yields a state at page 1, a page-right key (`l`, `right`) pressed at page 750
yields a state at page 750. -/
theorem currentPage_in_range (B : Bubbles) (w h : Int) (msgs : List Msg) (m : model)
    (hr : run B (teaHandler w h) msgs = some m) :
    (1 ≤ m.currentPage ∧ m.currentPage ≤ 750) ∧
    (∀ k, (k = "h" ∨ k = "left") → m.currentPage = 1 →
      ∃ r, Update B m (Msg.key k) = some r ∧ r.1.currentPage = 1) ∧
    (∀ k, (k = "l" ∨ k = "right") → m.currentPage = 750 →
      ∃ r, Update B m (Msg.key k) = some r ∧ r.1.currentPage = 750) := by
  refine ⟨?_, ?_, ?_⟩
  · refine run_induction B (fun m => 1 ≤ m.currentPage ∧ m.currentPage ≤ 750) ?_ msgs
      (teaHandler w h) m ?_ hr
    · intro m0 msg r hm0 hstep
      have := Update_page B m0 msg r hstep
      unfold PageStep at this
      omega
    · simp [teaHandler, initialModel]
  · intro k hk hp
    obtain ⟨r, hr1⟩ := Update_pageKey_total B m k (by tauto)
    refine ⟨r, hr1, ?_⟩
    have := (Update_pageKey_step B m k r hr1).1 hk
    omega
  · intro k hk hp
    obtain ⟨r, hr1⟩ := Update_pageKey_total B m k (by tauto)
    refine ⟨r, hr1, ?_⟩
    have := (Update_pageKey_step B m k r hr1).2 hk
    omega

theorem currentPage_in_range_witness :
    run Bubbles.basic (teaHandler 80 24) wolfSearch = some wolfResults ∧
    ((1 ≤ wolfResults.currentPage ∧ wolfResults.currentPage ≤ 750) ∧
      (∀ k, (k = "h" ∨ k = "left") → wolfResults.currentPage = 1 →
        ∃ r, Update Bubbles.basic wolfResults (Msg.key k) = some r ∧ r.1.currentPage = 1) ∧
      (∀ k, (k = "l" ∨ k = "right") → wolfResults.currentPage = 750 →
        ∃ r, Update Bubbles.basic wolfResults (Msg.key k) = some r ∧ r.1.currentPage = 750)) :=
  ⟨by decide, currentPage_in_range Bubbles.basic 80 24 wolfSearch wolfResults (by decide)⟩

/-! ## Preview results -/

/-- C1, as stated, fails. After three preview requests (generation 3 is current) the
result of request 2, a render of the image of post 102 that succeeded before the request
was cancelled, is delivered after request 3 was issued: `Update` puts it into the preview
viewport, replacing the loading placeholder of request 3. -/
theorem stale_preview_is_applied :
    (runLoop Bubbles.basic (teaHandler 80 24) threePreviews).map
        (fun r => (previewGeneration r.2, r.1.onEntranceScreen, r.1.showTags,
          r.1.previewViewport.content)) = some (3, false, false, "* Loading preview...") ∧
    downloadAndRenderImage "f102" DownloadOutcome.ok (RenderOutcome.ok "IMG102") =
      some (PreviewResult.toMsg { generation := 2, content := "\x1b[sIMG102\x1b[u" }) ∧
    (run Bubbles.basic (teaHandler 80 24)
        (threePreviews ++
          [PreviewResult.toMsg { generation := 2, content := "\x1b[sIMG102\x1b[u" }])).map
        (fun m => m.previewViewport.content) = some "\x1b[sIMG102\x1b[u" := by
  refine ⟨by decide, by decide, by decide⟩

/-- C1, amended. In every Browsing state with the tag popup closed, `Update` puts the
content of every preview-completed message into the preview viewport and scrolls it to
the top, whichever request produced it: the message carries no generation and `Update`
compares none. Superseded requests are only cancelled: when a request is stored and a
post is selected, `triggerPreviewUpdate` returns, the cancellation of the stored request
comes first and the batch of a screen clear, a spinner tick and the new preview request
(for the display URL of the selected post, at three quarters of the width) after it, and
a request is stored afterwards; a preview task for a non-empty URL whose download or
renderer run ends cancelled delivers no message. -/
theorem previewLoaded_always_applied (B : Bubbles) (m : model) (content : String)
    (hB : m.onEntranceScreen = false) (hT : m.showTags = false) :
    Update B m (Msg.previewLoaded content) =
      some ({ m with previewViewport :=
                { content := content,
                  YOffset := B.viewportScroll content 0 (Msg.previewLoaded content) } }, []) ∧
    (∀ p, goIndex m.posts m.postTable.cursor = some p → m.cancelPreview = true →
      ∃ r, triggerPreviewUpdate B m = some r ∧ r.1.cancelPreview = true ∧
        r.2 = [Cmd.cancelPreview, Cmd.clearScreen, Cmd.spinnerTick,
          Cmd.preview (getDisplayURL m p) (Int.tdiv (m.width * 3) 4)]) ∧
    (∀ url r, url ≠ "" → downloadAndRenderImage url DownloadOutcome.canceled r = none) ∧
    (∀ url, url ≠ "" →
      downloadAndRenderImage url DownloadOutcome.ok RenderOutcome.failedCanceled = none) := by
  refine ⟨?_, ?_, ?_, ?_⟩
  · simp [Update, UpdateBrowsing, finishUpdate, hB, hT, viewportModel.SetContent,
      viewportModel.GotoTop, viewportModel.Update]
  · intro p hsel hc
    have hrange : ¬ m.postTable.Cursor ≥ (m.posts.length : Int) := by
      unfold goIndex at hsel
      split_ifs at hsel with hneg
      have := List.getElem?_eq_some_iff.mp hsel
      obtain ⟨hlt, -⟩ := this
      simp only [tableModel.Cursor]
      omega
    have hsel1 : goIndex m.posts m.postTable.Cursor = some p := hsel
    unfold triggerPreviewUpdate
    rw [if_neg hrange, hsel1]
    simp only [hc]
    exact ⟨_, rfl, rfl, rfl⟩
  · intro url r hu
    simp [downloadAndRenderImage, hu]
  · intro url hu
    simp [downloadAndRenderImage, hu]

theorem previewLoaded_always_applied_witness :
    (wolfResults.onEntranceScreen = false ∧ wolfResults.showTags = false ∧
      wolfResults.cancelPreview = true ∧
      goIndex wolfResults.posts wolfResults.postTable.cursor =
        some (samplePost 101 [] "f101" "s101" true) ∧
      getDisplayURL wolfResults (samplePost 101 [] "f101" "s101" true) = "s101" ∧
      Int.tdiv (wolfResults.width * 3) 4 = 60) ∧
    Update Bubbles.basic wolfResults (Msg.previewLoaded "late") =
      some ({ wolfResults with previewViewport :=
                { content := "late",
                  YOffset := Bubbles.basic.viewportScroll "late" 0 (Msg.previewLoaded "late") } },
            []) ∧
    (∃ r, triggerPreviewUpdate Bubbles.basic wolfResults = some r ∧
      r.1.cancelPreview = true ∧
      r.2 = [Cmd.cancelPreview, Cmd.clearScreen, Cmd.spinnerTick,
        Cmd.preview (getDisplayURL wolfResults (samplePost 101 [] "f101" "s101" true))
          (Int.tdiv (wolfResults.width * 3) 4)]) :=
  ⟨by decide,
    (previewLoaded_always_applied Bubbles.basic wolfResults "late" (by decide) (by decide)).1,
    (previewLoaded_always_applied Bubbles.basic wolfResults "late" (by decide) (by decide)).2.1
      (samplePost 101 [] "f101" "s101" true) (by decide) (by decide)⟩

/-! ## The table cursor -/

theorem clamp_range (v : Int) (n : Nat) (hn : 0 < n) :
    0 ≤ clamp v 0 ((n : Int) - 1) ∧ clamp v 0 ((n : Int) - 1) < n := by
  unfold clamp; omega

/-- The fields `updateEntrance` never writes. -/
theorem updateEntrance_frame (B : Bubbles) (m : model) (msg : Msg) :
    (updateEntrance B m msg).1.posts = m.posts ∧
      (updateEntrance B m msg).1.postTable = m.postTable ∧
      (updateEntrance B m msg).1.err = m.err ∧
      (updateEntrance B m msg).1.previewViewport = m.previewViewport ∧
      (updateEntrance B m msg).1.showTags = m.showTags ∧
      (updateEntrance B m msg).1.jumpToPostID = m.jumpToPostID := by
  unfold updateEntrance
  cases msg <;> simp only []
  case key s =>
    split
    · rename_i h
      unfold entranceQuitPrompt at h
      split_ifs at h <;> cases h <;> simp
    · split
      · rename_i h
        split_ifs at h
        · unfold entranceSearchKeys at h
          split_ifs at h <;> cases h <;> simp
        · unfold entranceButtonKeys applyButton at h
          split_ifs at h <;> cases h <;> simp
      · simp
  all_goals simp

theorem jumpLoop_frame (jump : Int) (t : tableModel) (posts : List Post) :
    ∀ i, (jumpLoop jump t i posts).rows = t.rows ∧ (jumpLoop jump t i posts).focus = t.focus ∧
      ((jumpLoop jump t i posts).cursor = t.cursor ∨
        ∃ v, (jumpLoop jump t i posts).cursor = clamp v 0 ((t.rows.length : Int) - 1)) := by
  induction posts with
  | nil => intro i; simp [jumpLoop]
  | cons p ps ih =>
    intro i
    unfold jumpLoop
    split_ifs
    · exact ⟨rfl, rfl, Or.inr ⟨_, rfl⟩⟩
    · exact ih (i + 1)

theorem TableInv_congr (m m1 : model) (h1 : m1.posts = m.posts)
    (h2 : m1.postTable = m.postTable) (hi : TableInv m) : TableInv m1 := by
  unfold TableInv at *
  rw [h1, h2]; exact hi

theorem TableInv_trigger (B : Bubbles) (m : model) (r : model × List Cmd)
    (h : triggerPreviewUpdate B m = some r) (hi : TableInv m) : TableInv r.1 := by
  obtain ⟨-, h1, h2, -⟩ := triggerPreviewUpdate_frame B m r h
  exact TableInv_congr m r.1 h1 h2 hi

theorem TableInv_finish (B : Bubbles) (m : model) (msg : Msg) (c : List Cmd)
    (r : model × List Cmd) (h : finishUpdate B m msg c = some r) (hi : TableInv m) :
    TableInv r.1 := by
  unfold finishUpdate at h
  cases h
  exact TableInv_congr m _ rfl rfl hi

theorem TableInv_clearResults (B : Bubbles) (m : model) (hi : TableInv m) :
    TableInv (clearResults B m) := by
  unfold TableInv clearResults tableModel.SetRows at *
  simp [hi.2]

theorem TableInv_storeResults (m : model) (posts : List Post) (hi : TableInv m) :
    TableInv (storeResults m posts) := by
  unfold TableInv storeResults tableModel.SetRows tableModel.SetColumns at *
  simp [hi.2]

theorem TableInv_relocateCursor (m : model) (hi : TableInv m) :
    TableInv (relocateCursor m) := by
  unfold relocateCursor
  split_ifs
  · obtain ⟨h1, h2, -⟩ := jumpLoop_frame m.jumpToPostID m.postTable m.posts 0
    unfold TableInv at *
    simp only []
    rw [h1, h2]
    exact hi
  · exact hi

theorem TableInv_postsFetched (B : Bubbles) (m : model) (posts : List Post)
    (r : model × List Cmd) (h : UpdatePostsFetched B m posts = some r) (hi : TableInv m) :
    TableInv r.1 := by
  have key := TableInv_relocateCursor _ (TableInv_storeResults m posts hi)
  unfold UpdatePostsFetched at h
  simp only [] at h
  split_ifs at h
  · split at h
    · cases h
    · rename_i hm
      exact TableInv_finish B _ _ _ r h (TableInv_trigger B _ _ hm key)
  · exact TableInv_finish B _ _ _ r h (TableInv_congr _ _ rfl rfl key)

/-- The cursor of a table after `table.Update`: unchanged, or clamped into the rows. -/
theorem tableUpdate_frame (t : tableModel) (msg : Msg) :
    (t.Update msg).rows = t.rows ∧ (t.Update msg).focus = t.focus ∧
      ((t.Update msg).cursor = t.cursor ∨
        ∃ v, (t.Update msg).cursor = clamp v 0 ((t.rows.length : Int) - 1)) := by
  have hup : ∀ n, (t.MoveUp n).rows = t.rows ∧ (t.MoveUp n).focus = t.focus ∧
      ((t.MoveUp n).cursor = t.cursor ∨
        ∃ v, (t.MoveUp n).cursor = clamp v 0 ((t.rows.length : Int) - 1)) :=
    fun n => ⟨rfl, rfl, Or.inr ⟨t.cursor - n, rfl⟩⟩
  have hdown : ∀ n, (t.MoveDown n).rows = t.rows ∧ (t.MoveDown n).focus = t.focus ∧
      ((t.MoveDown n).cursor = t.cursor ∨
        ∃ v, (t.MoveDown n).cursor = clamp v 0 ((t.rows.length : Int) - 1)) :=
    fun n => ⟨rfl, rfl, Or.inr ⟨t.cursor + n, rfl⟩⟩
  have hid : t.rows = t.rows ∧ t.focus = t.focus ∧
      (t.cursor = t.cursor ∨ ∃ v, t.cursor = clamp v 0 ((t.rows.length : Int) - 1)) :=
    ⟨rfl, rfl, Or.inl rfl⟩
  unfold tableModel.Update
  split_ifs
  · exact hid
  · cases msg with
    | key s =>
      simp only []
      unfold tableModel.GotoTop tableModel.GotoBottom
      split
      · exact hup _
      split
      · exact hdown _
      split
      · exact hup _
      split
      · exact hdown _
      split
      · exact hup _
      split
      · exact hdown _
      split
      · exact hup _
      split
      · exact hdown _
      exact hid
    | _ => exact hid

theorem TableInv_tableUpdate (m : model) (msg : Msg) (hi : TableInv m) :
    TableInv { m with postTable := m.postTable.Update msg } := by
  obtain ⟨h1, h2, -⟩ := tableUpdate_frame m.postTable msg
  unfold TableInv at *
  simp only []
  rw [h1, h2]
  exact hi

theorem TableInv_keyTable (B : Bubbles) (m : model) (s : String)
    (r : model × List Cmd) (h : UpdateKeyTable B m s = some r) (hi : TableInv m) :
    TableInv r.1 := by
  have key := TableInv_tableUpdate m (Msg.key s) hi
  unfold UpdateKeyTable at h
  simp only [] at h
  split_ifs at h
  · split at h
    · cases h
    · rename_i hm
      exact TableInv_finish B _ _ _ r h (TableInv_trigger B _ _ hm key)
  · exact TableInv_finish B _ _ _ r h key
  · exact TableInv_finish B _ _ _ r h hi

theorem TableInv_keyUnfocused (B : Bubbles) (m : model) (s : String)
    (r : model × List Cmd) (h : UpdateKeyUnfocused B m s = some r) (hi : TableInv m) :
    TableInv r.1 := by
  unfold UpdateKeyUnfocused at h
  split_ifs at h
  · unfold UpdateKeyBack at h
    cases h
    exact TableInv_congr _ _ rfl rfl (TableInv_clearResults B _ (TableInv_congr m _ rfl rfl hi))
  · unfold UpdateKeyCopy at h
    simp only [] at h
    split_ifs at h
    · split at h
      · cases h
      · exact TableInv_finish B _ _ _ r h (TableInv_congr m _ rfl rfl hi)
    · exact TableInv_finish B _ _ _ r h hi
  · exact TableInv_finish B _ _ _ r h (TableInv_congr m _ rfl rfl hi)
  · unfold UpdateKeyRefresh at h
    exact TableInv_finish B _ _ _ r h
      (TableInv_clearResults B _ (TableInv_congr m _ rfl rfl hi))
  · unfold UpdateKeyFullImage at h
    simp only [] at h
    split_ifs at h
    · split at h
      · cases h
      · rename_i hm
        exact TableInv_finish B _ _ _ r h
          (TableInv_trigger B _ _ hm (TableInv_congr m _ rfl rfl hi))
    · exact TableInv_finish B _ _ _ r h (TableInv_congr m _ rfl rfl hi)
  · unfold UpdateKeyPool at h
    simp only [] at h
    split_ifs at h
    · split at h
      · cases h
      · split at h
        · exact TableInv_finish B _ _ _ r h hi
        · split_ifs at h
          · exact TableInv_finish B _ _ _ r h
              (TableInv_clearResults B _ (TableInv_congr m _ rfl rfl hi))
          · exact TableInv_finish B _ _ _ r h hi
    · exact TableInv_finish B _ _ _ r h hi
  · unfold UpdateKeyTags at h
    simp only [] at h
    split_ifs at h
    · exact TableInv_finish B _ _ _ r h (TableInv_congr m _ rfl rfl hi)
    · exact TableInv_finish B _ _ _ r h hi
  · unfold UpdateKeyPageLeft at h
    refine TableInv_finish B _ _ _ r h
      (TableInv_clearResults B _ (TableInv_congr (pageLeft m) _ rfl rfl ?_))
    unfold pageLeft; split_ifs
    · exact TableInv_congr m _ rfl rfl hi
    · exact hi
  · unfold UpdateKeyPageRight at h
    refine TableInv_finish B _ _ _ r h
      (TableInv_clearResults B _ (TableInv_congr (pageRight m) _ rfl rfl ?_))
    unfold pageRight; split_ifs
    · exact TableInv_congr m _ rfl rfl hi
    · exact hi
  · exact TableInv_keyTable B m s r h hi

theorem TableInv_keyFocused (B : Bubbles) (m : model) (s : String)
    (r : model × List Cmd) (h : UpdateKeyFocused B m s = some r) (hi : TableInv m) :
    TableInv r.1 := by
  unfold UpdateKeyFocused at h
  simp only [] at h
  split_ifs at h
  · exact TableInv_finish B _ _ _ r h
      (TableInv_clearResults B _ (TableInv_congr m _ rfl rfl hi))
  · exact TableInv_finish B _ _ _ r h (TableInv_congr m _ rfl rfl hi)
  · exact TableInv_finish B _ _ _ r h (TableInv_congr m _ rfl rfl hi)

theorem TableInv_Update (B : Bubbles) (m : model) (msg : Msg)
    (r : model × List Cmd) (hi : TableInv m) (h : Update B m msg = some r) : TableInv r.1 := by
  unfold Update at h
  split_ifs at h
  · cases h
    obtain ⟨h1, h2, -⟩ := updateEntrance_frame B m msg
    exact TableInv_congr m _ h1 h2 hi
  · cases h; exact TableInv_congr m _ rfl rfl hi
  · cases h; exact TableInv_congr m _ rfl rfl hi
  · unfold UpdateBrowsing at h
    cases msg with
    | postsFetched posts => exact TableInv_postsFetched B m posts r h hi
    | key s =>
      simp only [] at h
      split_ifs at h
      · exact TableInv_keyFocused B m s r h hi
      · exact TableInv_keyUnfocused B m s r h hi
    | spinnerTick =>
      simp only [] at h
      split_ifs at h <;> cases h
      · exact TableInv_congr m _ rfl rfl hi
      · exact hi
    | _ => exact TableInv_finish B _ _ _ r h (TableInv_congr m _ rfl rfl hi)

theorem goIndex_isSome {α : Type} (xs : List α) (i : Int) (h0 : 0 ≤ i)
    (h1 : i < (xs.length : Int)) : ∃ x, goIndex xs i = some x := by
  unfold goIndex
  have : i.toNat < xs.length := by omega
  rw [if_neg (by omega)]
  exact ⟨xs[i.toNat], List.getElem?_eq_getElem this⟩

/-- A key of the table's key map always re-clamps the cursor of a focused table. -/
theorem tableUpdate_tableKey (t : tableModel) (k : String) (hk : k ∈ tableKeys)
    (hf : t.focus = true) :
    (t.Update (Msg.key k)).rows = t.rows ∧
      ∃ v, (t.Update (Msg.key k)).cursor = clamp v 0 ((t.rows.length : Int) - 1) := by
  have hup : ∀ n, (t.MoveUp n).rows = t.rows ∧
      ∃ v, (t.MoveUp n).cursor = clamp v 0 ((t.rows.length : Int) - 1) :=
    fun n => ⟨rfl, ⟨t.cursor - n, rfl⟩⟩
  have hdown : ∀ n, (t.MoveDown n).rows = t.rows ∧
      ∃ v, (t.MoveDown n).cursor = clamp v 0 ((t.rows.length : Int) - 1) :=
    fun n => ⟨rfl, ⟨t.cursor + n, rfl⟩⟩
  unfold tableModel.Update
  rw [if_neg (by simp [hf])]
  simp only []
  unfold tableModel.GotoTop tableModel.GotoBottom
  split
  · exact hup _
  split
  · exact hdown _
  split
  · exact hup _
  split
  · exact hdown _
  split
  · exact hup _
  split
  · exact hdown _
  split
  · exact hup _
  split
  · exact hdown _
  exfalso
  simp only [tableKeys, List.mem_cons, List.mem_singleton, List.mem_nil_iff, or_false] at hk
  tauto

theorem UpdateKeyUnfocused_tableKey (B : Bubbles) (m : model) (k : String)
    (hk : k ∈ tableKeys) : UpdateKeyUnfocused B m k = UpdateKeyTable B m k := by
  simp only [tableKeys, List.mem_cons, List.mem_singleton, List.mem_nil_iff, or_false] at hk
  rcases hk with rfl | rfl | rfl | rfl | rfl | rfl | rfl | rfl | rfl | rfl | rfl | rfl | rfl |
    rfl | rfl | rfl | rfl <;> simp [UpdateKeyUnfocused]

/-- A cursor-move key over a non-empty result list, in Browsing with the search box
unfocused, the popup closed and no fetch outstanding: the step succeeds and the cursor
is a valid index. -/
theorem cursorMove_in_range (B : Bubbles) (m : model) (k : String) (hk : k ∈ tableKeys)
    (hi : TableInv m) (hE : m.onEntranceScreen = false) (hT : m.showTags = false)
    (hF : m.searchBox.focus = false) (hL : m.loading = false) (hP : m.posts ≠ []) :
    ∃ r, Update B m (Msg.key k) = some r ∧ r.1.posts = m.posts ∧
      0 ≤ r.1.postTable.cursor ∧ r.1.postTable.cursor < (m.posts.length : Int) := by
  have hlen : 0 < m.posts.length := List.length_pos.mpr hP
  obtain ⟨hrows, v, hv⟩ := tableUpdate_tableKey m.postTable k hk hi.2
  have hrange := clamp_range v m.postTable.rows.length (by rw [hi.1]; exact hlen)
  rw [← hv, hi.1] at hrange
  have hU : Update B m (Msg.key k) = UpdateKeyTable B m k := by
    simp [Update, UpdateBrowsing, hE, hT, hF, UpdateKeyUnfocused_tableKey B m k hk]
  rw [hU]
  unfold UpdateKeyTable
  simp only []
  rw [if_pos hL]
  split_ifs
  · obtain ⟨p, hp⟩ := goIndex_isSome m.posts (m.postTable.Update (Msg.key k)).cursor
      hrange.1 hrange.2
    unfold triggerPreviewUpdate
    simp only [tableModel.Cursor]
    rw [if_neg (by omega), hp]
    simp only [finishUpdate]
    exact ⟨_, rfl, rfl, hrange.1, hrange.2⟩
  · simp only [finishUpdate]
    exact ⟨_, rfl, rfl, hrange.1, hrange.2⟩

theorem clearingKey_keeps_cursor (B : Bubbles) (m : model) (k : String)
    (hk : k = "r" ∨ k = "h" ∨ k = "left" ∨ k = "l" ∨ k = "right")
    (hE : m.onEntranceScreen = false) (hT : m.showTags = false)
    (hF : m.searchBox.focus = false) :
    ∃ r, Update B m (Msg.key k) = some r ∧ r.1.posts = [] ∧
      r.1.postTable.cursor = m.postTable.cursor := by
  have hU : Update B m (Msg.key k) = UpdateKeyUnfocused B m k := by
    simp [Update, UpdateBrowsing, hE, hT, hF]
  rw [hU]
  rcases hk with rfl | hk | hk | hk | hk
  · refine ⟨_, by simp [UpdateKeyUnfocused, UpdateKeyRefresh, finishUpdate]; rfl, rfl, rfl⟩
  · rw [UpdateKeyUnfocused_left B m k (Or.inl hk)]
    refine ⟨_, rfl, rfl, ?_⟩
    simp only [clearResults, tableModel.SetRows, pageLeft]
    split_ifs <;> rfl
  · rw [UpdateKeyUnfocused_left B m k (Or.inr hk)]
    refine ⟨_, rfl, rfl, ?_⟩
    simp only [clearResults, tableModel.SetRows, pageLeft]
    split_ifs <;> rfl
  · rw [UpdateKeyUnfocused_right B m k (Or.inl hk)]
    refine ⟨_, rfl, rfl, ?_⟩
    simp only [clearResults, tableModel.SetRows, pageRight]
    split_ifs <;> rfl
  · rw [UpdateKeyUnfocused_right B m k (Or.inr hk)]
    refine ⟨_, rfl, rfl, ?_⟩
    simp only [clearResults, tableModel.SetRows, pageRight]
    split_ifs <;> rfl

/-- C3, as stated, fails. With the cursor on the second of two results, refresh empties
the results and the cursor stays 1, not 0; a following fetch of a single post leaves the
cursor at 1, past the only row. -/
theorem cursor_is_not_reset :
    (run Bubbles.basic (teaHandler 80 24) (wolfSearch ++ [Msg.key "down", Msg.key "r"])).map
        (fun m => (m.posts.length, m.postTable.cursor)) = some (0, 1) ∧
    (run Bubbles.basic (teaHandler 80 24)
        (wolfSearch ++ [Msg.key "down", Msg.key "r",
          Msg.postsFetched [samplePost 7 [] "f7" "" false]])).map
        (fun m => (m.posts.length, m.postTable.cursor)) = some (1, 1) := by
  refine ⟨by decide, by decide⟩

/-- The table holds one row per post and is focused in the initial model of a session,
and every step of `Update` keeps it so: it holds in every state a session reaches. -/
theorem TableInv_reachable (B : Bubbles) (w h : Int) (msgs : List Msg) (m : model)
    (hr : run B (teaHandler w h) msgs = some m) : TableInv m :=
  run_induction B TableInv (fun m msg r hi hstep => TableInv_Update B m msg r hi hstep)
    msgs (teaHandler w h) m ⟨rfl, rfl⟩ hr

/-- C3, amended. In every Browsing state with the search box unfocused and the tag
popup closed, whose table holds one row per post and is focused (as it does in every
state a session reaches, `TableInv_reachable`): a cursor-move key of the table, pressed
over a non-empty result list while no fetch is outstanding, is handled and leaves
`0 ≤ cursor < len(posts)` with the results unchanged; a refresh or page key is handled,
empties the results and leaves the cursor where it was (it is not reset to 0). -/
theorem cursor_valid_after_move (B : Bubbles) (m : model)
    (hrows : m.postTable.rows.length = m.posts.length) (hfocus : m.postTable.focus = true)
    (hE : m.onEntranceScreen = false) (hT : m.showTags = false)
    (hF : m.searchBox.focus = false) :
    (∀ k, k ∈ tableKeys → m.loading = false → m.posts ≠ [] →
      ∃ r, Update B m (Msg.key k) = some r ∧ r.1.posts = m.posts ∧
        0 ≤ r.1.postTable.cursor ∧ r.1.postTable.cursor < (m.posts.length : Int)) ∧
    (∀ k, k = "r" ∨ k = "h" ∨ k = "left" ∨ k = "l" ∨ k = "right" →
      ∃ r, Update B m (Msg.key k) = some r ∧ r.1.posts = [] ∧
        r.1.postTable.cursor = m.postTable.cursor) :=
  ⟨fun k hk hL hP => cursorMove_in_range B m k hk ⟨hrows, hfocus⟩ hE hT hF hL hP,
    fun k hk => clearingKey_keeps_cursor B m k hk hE hT hF⟩

theorem cursor_valid_after_move_witness :
    (run Bubbles.basic (teaHandler 80 24) (wolfSearch ++ [Msg.key "down"]) =
        some wolfSecondSelected ∧
      wolfSecondSelected.posts = wolfPosts ∧ wolfSecondSelected.postTable.cursor = 1) ∧
    (∃ r, Update Bubbles.basic wolfSecondSelected (Msg.key "down") = some r ∧
      r.1.posts = wolfSecondSelected.posts ∧ 0 ≤ r.1.postTable.cursor ∧
      r.1.postTable.cursor < (wolfSecondSelected.posts.length : Int)) ∧
    (∃ r, Update Bubbles.basic wolfSecondSelected (Msg.key "r") = some r ∧ r.1.posts = [] ∧
      r.1.postTable.cursor = wolfSecondSelected.postTable.cursor) :=
  ⟨by decide,
    (cursor_valid_after_move Bubbles.basic wolfSecondSelected (by decide) (by decide)
      (by decide) (by decide) (by decide)).1 "down" (by decide) (by decide) (by decide),
    (cursor_valid_after_move Bubbles.basic wolfSecondSelected (by decide) (by decide)
      (by decide) (by decide) (by decide)).2 "r" (Or.inl rfl)⟩

/-! ## Errors -/

/-- C4: what the code does at the failing input. With the error `boom` recorded in
Browsing, the keys are not ignored: the refresh key clears the results, sets `loading`
and schedules a fetch; the toggle-image key flips `showFullImage` and schedules a
preview; and `esc`, which the error screen announces as the quit key, does not quit: it
returns to the entrance menu with the error still recorded, scheduling only the cursor
blink and a screen clear. -/
theorem keys_handled_after_error :
    run Bubbles.basic (teaHandler 80 24) (wolfSearch ++ [Msg.error "boom"]) = some wolfFailed ∧
    (wolfFailed.err = some "boom" ∧ wolfFailed.onEntranceScreen = false ∧
      wolfFailed.loading = false ∧ wolfFailed.showFullImage = false ∧
      wolfFailed.posts = wolfPosts) ∧
    (Update Bubbles.basic wolfFailed (Msg.key "r")).map
        (fun r => (r.1.err, r.1.loading, r.1.posts, r.2)) =
      some (some "boom", true, [],
        [Cmd.fetchPosts "wolf" 1, Cmd.spinnerTick, Cmd.clearScreen]) ∧
    (Update Bubbles.basic wolfFailed (Msg.key "e")).map
        (fun r => (r.1.err, r.1.showFullImage, r.2)) =
      some (some "boom", true,
        [Cmd.cancelPreview, Cmd.clearScreen, Cmd.spinnerTick, Cmd.preview "f101" 60]) ∧
    (Update Bubbles.basic wolfFailed (Msg.key "esc")).map
        (fun r => (r.1.err, r.1.onEntranceScreen, r.1.posts, r.2)) =
      some (some "boom", true, [], [Cmd.blink, Cmd.clearScreen]) := by
  refine ⟨by decide, by decide, by decide, by decide, by decide⟩

/-- C5: what the code does at the failing input. The startup check yields the error
message; delivered to the initial model, which is on the entrance screen, it leaves
`err` unset, because `updateEntrance` has no case for it; the session then searches and
schedules a preview as usual. -/
theorem startup_error_is_dropped :
    Init false = some (Msg.error kittyMissing) ∧
    (Update Bubbles.basic (teaHandler 80 24) (Msg.error kittyMissing)).map
        (fun r => (r.1.err, r.1.onEntranceScreen)) = some (none, true) ∧
    (runLoop Bubbles.basic (teaHandler 80 24) (Msg.error kittyMissing :: wolfSearch)).map
        (fun r => (r.1.err, previewGeneration r.2)) = some (none, 1) := by
  refine ⟨by decide, by decide, by decide⟩

/-! ## Committing a query -/

/-- C6, as stated, fails. In Browsing on page 2 with the cursor on the second result,
committing the filter box sets the query to the buffer but leaves the page at 2 and the
cursor at 1; on the entrance menu, committing resets the page but leaves the cursor
at 1. -/
theorem commit_keeps_cursor :
    (wolfFilterEdit.onEntranceScreen, wolfFilterEdit.searchBox, wolfFilterEdit.currentPage,
      wolfFilterEdit.postTable.cursor) = (false, { value := "wolffox", focus := true }, 2, 1) ∧
    (Update Bubbles.basic wolfFilterEdit (Msg.key "enter")).map
        (fun r => (r.1.query, r.1.currentPage, r.1.postTable.cursor)) =
      some ("wolffox", 2, 1) ∧
    (wolfBackAtMenu.onEntranceScreen, wolfBackAtMenu.searchBox, wolfBackAtMenu.postTable.cursor) =
      (true, { value := "wolf", focus := true }, 1) ∧
    (Update Bubbles.basic wolfBackAtMenu (Msg.key "enter")).map
        (fun r => (r.1.query, r.1.currentPage, r.1.postTable.cursor)) =
      some ("wolf", 1, 1) := by
  refine ⟨by decide, by decide, by decide, by decide⟩

/-- C6, amended. Committing the search buffer (enter while the search box is focused)
sets the active query to the buffer text verbatim, sets `loading` and schedules a fetch
of that query, on the entrance menu and in the Browsing filter box alike. On the
entrance menu it also resets `currentPage` to 1 and enters Browsing, changing nothing
else but the focus of the search box. In neither case is the table cursor reset: it
keeps its value. -/
theorem commit_sets_query (B : Bubbles) (m : model) (hF : m.searchBox.focus = true) :
    (m.onEntranceScreen = true →
      Update B m (Msg.key "enter") =
        some ({ m with query := m.searchBox.value, currentPage := 1, onEntranceScreen := false,
                       loading := true, searchBox := m.searchBox.Blur },
              [Cmd.fetchPosts m.searchBox.value 1, Cmd.spinnerTick])) ∧
    (m.onEntranceScreen = false → m.showTags = false →
      ∃ r, Update B m (Msg.key "enter") = some r ∧ r.1.query = m.searchBox.value ∧
        r.1.loading = true ∧ r.1.postTable.cursor = m.postTable.cursor ∧
        r.2 = [Cmd.fetchPosts m.searchBox.value r.1.currentPage, Cmd.spinnerTick]) := by
  constructor
  · intro hE
    have hq : entranceQuitPrompt m "enter" = none := by
      unfold entranceQuitPrompt
      split_ifs <;> simp_all
    simp [Update, hE, updateEntrance, hq, hF, entranceSearchKeys]
  · intro hE hT
    refine ⟨_, by simp [Update, UpdateBrowsing, UpdateKeyFocused, hE, hT, hF]; rfl, ?_⟩
    simp [finishUpdate, clearResults, tableModel.SetRows]

theorem commit_sets_query_witness :
    wolfFilterEdit.searchBox.focus = true ∧ wolfFilterEdit.onEntranceScreen = false ∧
    wolfFilterEdit.showTags = false ∧
    ∃ r, Update Bubbles.basic wolfFilterEdit (Msg.key "enter") = some r ∧
      r.1.query = wolfFilterEdit.searchBox.value ∧ r.1.loading = true ∧
      r.1.postTable.cursor = wolfFilterEdit.postTable.cursor ∧
      r.2 = [Cmd.fetchPosts wolfFilterEdit.searchBox.value r.1.currentPage, Cmd.spinnerTick] :=
  ⟨by decide, by decide, by decide,
    (commit_sets_query Bubbles.basic wolfFilterEdit (by decide)).2 (by decide) (by decide)⟩

/-! ## Pool navigation -/

/-- C7, as stated, fails. With the results of `pool:55` shown and the cursor on post
102, whose first pool is 55, the pool-view key changes nothing: the pending jump stays
0, `loading` stays false, the results stay and no command is scheduled. -/
theorem pool_key_ignored_on_same_pool :
    (wolfPoolShown.onEntranceScreen, wolfPoolShown.showTags, wolfPoolShown.searchBox.focus,
      wolfPoolShown.loading, wolfPoolShown.query) = (false, false, false, false, "pool:55") ∧
    (goIndex wolfPoolShown.posts wolfPoolShown.postTable.cursor).map (fun p => p.Pools) =
      some [55] ∧
    (Update Bubbles.basic wolfPoolShown (Msg.key "p")).map
        (fun r => (r.1.jumpToPostID, r.1.loading, r.1.posts.length, r.2)) =
      some (0, false, 2, []) := by
  refine ⟨by decide, by decide, by decide⟩

/-- C7, amended. In Browsing with the search box unfocused and the tag popup closed, when
the cursor selects a post with at least one pool id and no fetch is outstanding: if the
query is not already `pool:` followed by the decimal first pool id, the pool-view key
sets the query to it, sets `jumpToPostID` to the selected post's id, `currentPage` to 1
and `loading` to true, clears the results and schedules a catalog fetch of that query at
page 1; if the query already is that pool query, the key changes nothing in the session
(only the preview viewport sees the key) and schedules nothing. -/
theorem pool_key_navigates (B : Bubbles) (m : model) (p : Post) (poolID : Int)
    (rest : List Int) (hE : m.onEntranceScreen = false) (hT : m.showTags = false)
    (hF : m.searchBox.focus = false) (hL : m.loading = false)
    (hsel : goIndex m.posts m.postTable.cursor = some p) (hpool : p.Pools = poolID :: rest) :
    (m.query ≠ "pool:" ++ Itoa poolID →
      ∃ r, Update B m (Msg.key "p") = some r ∧ r.1.query = "pool:" ++ Itoa poolID ∧
        r.1.jumpToPostID = p.ID ∧ r.1.currentPage = 1 ∧ r.1.loading = true ∧ r.1.posts = [] ∧
        r.2 = [Cmd.fetchPosts ("pool:" ++ Itoa poolID) 1, Cmd.spinnerTick, Cmd.clearScreen]) ∧
    (m.query = "pool:" ++ Itoa poolID →
      Update B m (Msg.key "p") = finishUpdate B m (Msg.key "p") []) := by
  have hU : Update B m (Msg.key "p") = UpdateKeyPool B m := by
    simp [Update, UpdateBrowsing, UpdateKeyUnfocused, hE, hT, hF]
  have hrange : m.posts.length > 0 ∧ m.postTable.Cursor < (m.posts.length : Int) := by
    unfold goIndex at hsel
    split_ifs at hsel with hneg
    have := List.getElem?_eq_some_iff.mp hsel
    obtain ⟨hlt, -⟩ := this
    simp only [tableModel.Cursor]
    omega
  have hsel1 : goIndex m.posts m.postTable.Cursor = some p := hsel
  rw [hU]
  unfold UpdateKeyPool
  simp only []
  rw [if_pos ⟨hL, hrange⟩, hsel1]
  simp only [hpool]
  constructor
  · intro hq
    rw [if_pos hq]
    exact ⟨_, rfl, rfl, rfl, rfl, rfl, rfl, rfl⟩
  · intro hq
    rw [if_neg (by simpa using hq)]

theorem pool_key_navigates_witness :
    (wolfSecondSelected.onEntranceScreen = false ∧ wolfSecondSelected.showTags = false ∧
      wolfSecondSelected.searchBox.focus = false ∧ wolfSecondSelected.loading = false ∧
      wolfSecondSelected.query = "wolf" ∧ wolfSecondSelected.postTable.cursor = 1 ∧
      wolfPoolShown.query = "pool:55" ∧ Itoa 55 = "55") ∧
    (∃ r, Update Bubbles.basic wolfSecondSelected (Msg.key "p") = some r ∧
      r.1.query = "pool:" ++ Itoa 55 ∧ r.1.jumpToPostID = 102 ∧ r.1.currentPage = 1 ∧
      r.1.loading = true ∧ r.1.posts = [] ∧
      r.2 = [Cmd.fetchPosts ("pool:" ++ Itoa 55) 1, Cmd.spinnerTick, Cmd.clearScreen]) ∧
    Update Bubbles.basic wolfPoolShown (Msg.key "p") =
      finishUpdate Bubbles.basic wolfPoolShown (Msg.key "p") [] :=
  ⟨by decide,
    (pool_key_navigates Bubbles.basic wolfSecondSelected
      (samplePost 102 [55] "f102" "" false) 55 []
      (by decide) (by decide) (by decide) (by decide) (by decide) (by decide)).1 (by decide),
    (pool_key_navigates Bubbles.basic wolfPoolShown (samplePost 102 [55] "f102" "" false) 55 []
      (by decide) (by decide) (by decide) (by decide) (by decide) (by decide)).2 (by decide)⟩


theorem jumpLoop_not_found (jump : Int) (t : tableModel) (posts : List Post)
    (h : ∀ p ∈ posts, p.ID ≠ jump) : ∀ k, jumpLoop jump t k posts = t := by
  induction posts with
  | nil => intro k; rfl
  | cons p ps ih =>
    intro k
    unfold jumpLoop
    rw [if_neg (h p (List.mem_cons_self p ps))]
    exact ih (fun q hq => h q (List.mem_cons_of_mem p hq)) (k + 1)

theorem jumpLoop_found (jump : Int) (t : tableModel) (posts : List Post) :
    ∀ (i k : Nat) (p : Post), posts[i]? = some p → p.ID = jump →
      (∀ j q, j < i → posts[j]? = some q → q.ID ≠ jump) →
      jumpLoop jump t k posts = t.SetCursor ((k + i : Nat) : Int) := by
  induction posts with
  | nil => intro i k p hi; simp at hi
  | cons p0 ps ih =>
    intro i k p hi hid hfirst
    unfold jumpLoop
    cases i with
    | zero =>
      simp only [List.getElem?_cons_zero, Option.some.injEq] at hi
      subst hi
      rw [if_pos hid]
      rfl
    | succ i =>
      have h0 := hfirst 0 p0 (Nat.succ_pos i) (by simp)
      rw [if_neg h0]
      have := ih i (k + 1) p (by simpa using hi) hid (by
        intro j q hj hq
        exact hfirst (j + 1) q (Nat.succ_lt_succ hj) (by simpa using hq))
      rw [this]
      congr 2
      omega

theorem triggerPreviewUpdate_total (B : Bubbles) (m : model) (h : 0 ≤ m.postTable.cursor) :
    ∃ r, triggerPreviewUpdate B m = some r := by
  unfold triggerPreviewUpdate
  split_ifs with hc
  · exact ⟨_, rfl⟩
  · obtain ⟨p, hp⟩ := goIndex_isSome m.posts m.postTable.Cursor h
      (by simp only [tableModel.Cursor] at hc ⊢; omega)
    rw [hp]
    exact ⟨_, rfl⟩

/-- What a successful `postsFetchedMsg` step leaves: the fetched list, `loading` off,
and the table and pending jump as `relocateCursor` set them. -/
theorem UpdatePostsFetched_result (B : Bubbles) (m : model) (posts : List Post)
    (r : model × List Cmd) (h : UpdatePostsFetched B m posts = some r) :
    r.1.posts = posts ∧ r.1.loading = false ∧
      r.1.postTable = (relocateCursor (storeResults m posts)).postTable ∧
      r.1.jumpToPostID = (relocateCursor (storeResults m posts)).jumpToPostID := by
  have hp : (relocateCursor (storeResults m posts)).posts = posts := by
    unfold relocateCursor; split_ifs <;> rfl
  have hl : (relocateCursor (storeResults m posts)).loading = false := by
    unfold relocateCursor; split_ifs <;> rfl
  unfold UpdatePostsFetched finishUpdate at h
  simp only [] at h
  split_ifs at h
  · split at h
    · cases h
    · rename_i hm
      cases h
      obtain ⟨-, h1, h2, h3, -, -, -, -, -, h4, -⟩ := triggerPreviewUpdate_frame B _ _ hm
      simp only [] at h1 h2 h3 h4 ⊢
      rw [h1, h2, h3, h4]
      exact ⟨hp, hl, rfl, rfl⟩
  · cases h
    exact ⟨hp, hl, rfl, rfl⟩

theorem UpdatePostsFetched_total (B : Bubbles) (m : model) (posts : List Post)
    (h : 0 ≤ (relocateCursor (storeResults m posts)).postTable.cursor ∨ posts = []) :
    ∃ r, UpdatePostsFetched B m posts = some r := by
  have hp : (relocateCursor (storeResults m posts)).posts = posts := by
    unfold relocateCursor; split_ifs <;> rfl
  unfold UpdatePostsFetched finishUpdate
  simp only []
  split_ifs with hc
  · rw [hp] at hc
    rcases h with h | h
    · obtain ⟨r, hr⟩ := triggerPreviewUpdate_total B _ h
      rw [hr]
      exact ⟨_, rfl⟩
    · subst h; simp at hc
  · exact ⟨_, rfl⟩

/-- C8, as stated, fails. Pool navigation from the second result remembers id 102; the
pool's fetch returns a single post with another id: the cursor stays 1 (it is not 0,
and not an index of the one-element result list), the pending jump is cleared. -/
theorem cursor_kept_when_jump_missing :
    (run Bubbles.basic (teaHandler 80 24)
        (wolfSearch ++ [Msg.key "down", Msg.key "p"])).map
        (fun m => (m.jumpToPostID, m.postTable.cursor)) = some (102, 1) ∧
    (run Bubbles.basic (teaHandler 80 24)
        (wolfSearch ++ [Msg.key "down", Msg.key "p",
          Msg.postsFetched [samplePost 7 [55] "f7" "" false]])).map
        (fun m => (m.jumpToPostID, m.postTable.cursor, m.posts.length, m.loading)) =
      some (0, 1, 1, false) := by
  refine ⟨by decide, by decide⟩

/-- C8, amended. When a successful fetch result is applied in Browsing with a pending
jump-to-id `J ≠ 0`: if some post of the new results has id `J`, the step succeeds and the
cursor becomes the index of the first such post; otherwise the cursor keeps the value it
had (the step succeeds when that value is not negative or the list is empty). In both
cases the pending jump is cleared, the results are the fetched list and `loading` is
false. -/
theorem jump_relocates_cursor (B : Bubbles) (m : model) (posts : List Post)
    (hE : m.onEntranceScreen = false) (hT : m.showTags = false) (hJ : m.jumpToPostID ≠ 0) :
    (∀ (i : Nat) (p : Post), posts[i]? = some p → p.ID = m.jumpToPostID →
        (∀ j q, j < i → posts[j]? = some q → q.ID ≠ m.jumpToPostID) →
        ∃ r, Update B m (Msg.postsFetched posts) = some r ∧ r.1.postTable.cursor = (i : Int) ∧
          r.1.jumpToPostID = 0 ∧ r.1.posts = posts ∧ r.1.loading = false) ∧
    ((∀ p ∈ posts, p.ID ≠ m.jumpToPostID) →
        (0 ≤ m.postTable.cursor ∨ posts = [] → ∃ r, Update B m (Msg.postsFetched posts) = some r) ∧
        ∀ r, Update B m (Msg.postsFetched posts) = some r →
          r.1.postTable.cursor = m.postTable.cursor ∧ r.1.jumpToPostID = 0 ∧
          r.1.posts = posts ∧ r.1.loading = false) := by
  have hU : Update B m (Msg.postsFetched posts) = UpdatePostsFetched B m posts := by
    simp [Update, UpdateBrowsing, hE, hT]
  have hJ1 : (storeResults m posts).jumpToPostID ≠ 0 := hJ
  have hrel : relocateCursor (storeResults m posts) =
      { storeResults m posts with
        postTable := jumpLoop m.jumpToPostID (storeResults m posts).postTable 0 posts,
        jumpToPostID := 0 } := by
    unfold relocateCursor
    rw [if_pos hJ1]
    rfl
  rw [hU]
  constructor
  · intro i p hi hid hfirst
    have hlt : i < posts.length := by
      by_contra hc
      rw [List.getElem?_eq_none (by omega)] at hi
      cases hi
    have hloop := jumpLoop_found m.jumpToPostID (storeResults m posts).postTable posts i 0 p
      hi hid hfirst
    have hcur : (relocateCursor (storeResults m posts)).postTable.cursor = (i : Int) := by
      rw [hrel]
      simp only []
      rw [hloop]
      simp only [tableModel.SetCursor, storeResults, tableModel.SetRows, List.length_map,
        clamp, Nat.zero_add]
      omega
    obtain ⟨r, hr⟩ := UpdatePostsFetched_total B m posts (Or.inl (by rw [hcur]; omega))
    obtain ⟨h1, h2, h3, h4⟩ := UpdatePostsFetched_result B m posts r hr
    refine ⟨r, hr, ?_, ?_, h1, h2⟩
    · rw [h3, hcur]
    · rw [h4, hrel]
  · intro hnone
    have hloop := jumpLoop_not_found m.jumpToPostID (storeResults m posts).postTable posts hnone 0
    have hcur : (relocateCursor (storeResults m posts)).postTable.cursor = m.postTable.cursor := by
      rw [hrel]
      simp only []
      rw [hloop]
      rfl
    constructor
    · intro h0
      refine UpdatePostsFetched_total B m posts ?_
      rcases h0 with h0 | h0
      · left; rw [hcur]; exact h0
      · right; exact h0
    · intro r hr
      obtain ⟨h1, h2, h3, h4⟩ := UpdatePostsFetched_result B m posts r hr
      refine ⟨?_, ?_, h1, h2⟩
      · rw [h3, hcur]
      · rw [h4, hrel]

theorem jump_relocates_cursor_witness :
    wolfPoolPending.onEntranceScreen = false ∧ wolfPoolPending.showTags = false ∧
    wolfPoolPending.jumpToPostID ≠ 0 ∧
    ∃ r, Update Bubbles.basic wolfPoolPending (Msg.postsFetched wolfPosts) = some r ∧
      r.1.postTable.cursor = ((1 : Nat) : Int) ∧ r.1.jumpToPostID = 0 ∧
      r.1.posts = wolfPosts ∧ r.1.loading = false :=
  ⟨by decide, by decide, by decide,
    (jump_relocates_cursor Bubbles.basic wolfPoolPending wolfPosts (by decide) (by decide)
      (by decide)).1 1 (samplePost 102 [55] "f102" "" false) (by decide) (by decide)
      (by
        intro j q hj hq
        have hj0 : j = 0 := by omega
        subst hj0
        simp only [wolfPosts, List.getElem?_cons_zero, Option.some.injEq] at hq
        subst hq
        decide)⟩


/-! ## The display URL -/

/-- C9. For every post and every value of `showFullImage`, `getDisplayURL` is the
full-resolution URL when `showFullImage` is set or the post has no sample (`Sample.Has`
false or `Sample.URL` empty), and the sample URL otherwise. So for a post without a
sample the resolved URL is the full-resolution URL before and after the toggle-image
key, which in Browsing (search box unfocused, tag popup closed) flips `showFullImage`
whenever the step succeeds. -/
theorem getDisplayURL_spec (B : Bubbles) (m : model) (p : Post) :
    (getDisplayURL m p =
      if m.showFullImage = true ∨ p.Sample.Has = false ∨ p.Sample.URL = ""
      then p.File.URL else p.Sample.URL) ∧
    (p.Sample.Has = false ∨ p.Sample.URL = "" →
      getDisplayURL m p = p.File.URL ∧
      (m.onEntranceScreen = false → m.showTags = false → m.searchBox.focus = false →
        ∀ r, Update B m (Msg.key "e") = some r →
          r.1.showFullImage = (!m.showFullImage) ∧ getDisplayURL r.1 p = p.File.URL)) := by
  have hno : ∀ m1 : model, (p.Sample.Has = false ∨ p.Sample.URL = "") →
      getDisplayURL m1 p = p.File.URL := by
    intro m1 h
    unfold getDisplayURL
    split_ifs with h1 h2
    · rfl
    · rcases h with h | h
      · rw [h] at h2; simp at h2
      · exact absurd h h2.2
    · rfl
  constructor
  · unfold getDisplayURL
    by_cases h1 : m.showFullImage = true
    · simp [h1]
    · by_cases h2 : p.Sample.Has = true
      · by_cases h3 : p.Sample.URL = ""
        · simp [h1, h2, h3]
        · simp [h1, h2, h3]
      · simp [h1, h2]
  · intro h
    refine ⟨hno m h, ?_⟩
    intro hE hT hF r hr
    refine ⟨?_, hno r.1 h⟩
    have hU : Update B m (Msg.key "e") = UpdateKeyFullImage B m := by
      simp [Update, UpdateBrowsing, UpdateKeyUnfocused, hE, hT, hF]
    rw [hU] at hr
    unfold UpdateKeyFullImage finishUpdate at hr
    simp only [] at hr
    split_ifs at hr
    · split at hr
      · cases hr
      · rename_i hm
        cases hr
        exact (triggerPreviewUpdate_frame B _ _ hm).2.2.2.2.2.2.2.2.2.2.2
    · cases hr
      rfl

theorem getDisplayURL_spec_witness :
    ((samplePost 102 [55] "f102" "" false).Sample.Has = false ∨
      (samplePost 102 [55] "f102" "" false).Sample.URL = "") ∧
    getDisplayURL wolfResults (samplePost 102 [55] "f102" "" false) = "f102" ∧
    (Update Bubbles.basic wolfResults (Msg.key "e")).map
      (fun r => (r.1.showFullImage, getDisplayURL r.1 (samplePost 102 [55] "f102" "" false))) =
      some (true, "f102") :=
  ⟨by decide,
    ((getDisplayURL_spec Bubbles.basic wolfResults (samplePost 102 [55] "f102" "" false)).2
      (by decide)).1,
    by decide⟩


/-! ## The quit prompt -/

/-- C10: what the code does at the failing input. From the initial model, `esc` opens
the quit prompt and `enter`, which is neither `y` nor `n`, falls through the prompt to
the focused search box: the session enters Browsing with `quitting` still true, and no
quit command has been issued. -/
theorem quit_prompt_falls_through :
    (runLoop Bubbles.basic (teaHandler 80 24) [Msg.key "esc"]).map
        (fun r => (r.1.quitting, r.1.onEntranceScreen, r.2)) = some (true, true, []) ∧
    (runLoop Bubbles.basic (teaHandler 80 24) [Msg.key "esc", Msg.key "enter"]).map
        (fun r => (r.1.quitting, r.1.onEntranceScreen, r.1.loading, r.2)) =
      some (true, false, true, [Cmd.fetchPosts "" 1, Cmd.spinnerTick]) ∧
    (runLoop Bubbles.basic (teaHandler 80 24) [Msg.key "esc", Msg.key "x"]).map
        (fun r => (r.1.quitting, r.1.searchBox.value)) = some (true, "x") := by
  refine ⟨by decide, by decide, by decide⟩

/-! ## The tag popup and the status message -/

theorem UpdatePostsFetched_showTags (B : Bubbles) (m : model) (posts : List Post)
    (r : model × List Cmd) (h : UpdatePostsFetched B m posts = some r) :
    r.1.showTags = false := by
  have hs : (relocateCursor (storeResults m posts)).showTags = false := by
    unfold relocateCursor; split_ifs <;> rfl
  unfold UpdatePostsFetched finishUpdate at h
  simp only [] at h
  split_ifs at h
  · split at h
    · cases h
    · rename_i hm
      cases h
      have := (triggerPreviewUpdate_frame B _ _ hm).2.2.2.2.2.2.2.2.1
      simp only [] at this ⊢
      rw [this]; exact hs
  · cases h
    exact hs

theorem UpdateKeyTable_showTags (B : Bubbles) (m : model) (s : String)
    (r : model × List Cmd) (h : UpdateKeyTable B m s = some r) :
    r.1.showTags = m.showTags := by
  unfold UpdateKeyTable finishUpdate at h
  simp only [] at h
  split_ifs at h
  all_goals first
    | (cases h; rfl)
    | (split at h
       · cases h
       · rename_i hm
         cases h
         exact (triggerPreviewUpdate_frame B _ _ hm).2.2.2.2.2.2.2.2.1)

theorem UpdateKeyFullImage_showTags (B : Bubbles) (m : model)
    (r : model × List Cmd) (h : UpdateKeyFullImage B m = some r) :
    r.1.showTags = m.showTags := by
  unfold UpdateKeyFullImage finishUpdate at h
  simp only [] at h
  split_ifs at h
  all_goals first
    | (cases h; rfl)
    | (split at h
       · cases h
       · rename_i hm
         cases h
         exact (triggerPreviewUpdate_frame B _ _ hm).2.2.2.2.2.2.2.2.1)

theorem UpdateKeyCopy_showTags (B : Bubbles) (m : model)
    (r : model × List Cmd) (h : UpdateKeyCopy B m = some r) :
    r.1.showTags = m.showTags := by
  unfold UpdateKeyCopy finishUpdate at h
  simp only [] at h
  (repeat' split at h) <;> cases h <;> rfl

theorem UpdateKeyPool_showTags (B : Bubbles) (m : model)
    (r : model × List Cmd) (h : UpdateKeyPool B m = some r) :
    r.1.showTags = m.showTags := by
  unfold UpdateKeyPool finishUpdate clearResults at h
  simp only [] at h
  (repeat' split at h) <;> cases h <;> rfl

theorem UpdateKeyTags_result (B : Bubbles) (m : model) :
    UpdateKeyTags B m =
      finishUpdate B (if m.posts.length > 0 then { m with showTags := !m.showTags } else m)
        (Msg.key "t") [] := by
  unfold UpdateKeyTags
  simp only []
  split_ifs <;> rfl

/-- In Browsing with the popup closed, a step opens the popup only over results. -/
theorem UpdateKeyUnfocused_tags (B : Bubbles) (m : model) (s : String)
    (r : model × List Cmd) (hT : m.showTags = false) (hE : m.onEntranceScreen = false)
    (h : UpdateKeyUnfocused B m s = some r) : TagsInv r.1 := by
  unfold TagsInv
  unfold UpdateKeyUnfocused at h
  split_ifs at h
  · unfold UpdateKeyBack clearResults at h
    cases h
    intro h1
    simp only [] at h1
    rw [hT] at h1; cases h1
  · intro h1; rw [UpdateKeyCopy_showTags B m r h, hT] at h1; cases h1
  · unfold finishUpdate at h
    cases h
    intro h1; simp only [] at h1; rw [hT] at h1; cases h1
  · unfold UpdateKeyRefresh finishUpdate clearResults at h
    cases h
    intro h1; simp only [] at h1; rw [hT] at h1; cases h1
  · intro h1; rw [UpdateKeyFullImage_showTags B m r h, hT] at h1; cases h1
  · intro h1; rw [UpdateKeyPool_showTags B m r h, hT] at h1; cases h1
  · rw [UpdateKeyTags_result] at h
    unfold finishUpdate at h
    cases h
    split_ifs with hp
    · intro _
      simp only []
      exact ⟨List.ne_nil_of_length_pos hp, hE⟩
    · intro h1; simp only [] at h1; rw [hT] at h1; cases h1
  · unfold UpdateKeyPageLeft finishUpdate clearResults pageLeft at h
    cases h
    intro h1
    simp only [] at h1
    split_ifs at h1 <;> (try simp only [] at h1) <;> rw [hT] at h1 <;> cases h1
  · unfold UpdateKeyPageRight finishUpdate clearResults pageRight at h
    cases h
    intro h1
    simp only [] at h1
    split_ifs at h1 <;> (try simp only [] at h1) <;> rw [hT] at h1 <;> cases h1
  · intro h1; rw [UpdateKeyTable_showTags B m s r h, hT] at h1; cases h1

theorem UpdateBrowsing_tags (B : Bubbles) (m : model) (msg : Msg)
    (r : model × List Cmd) (hT : m.showTags = false) (hE : m.onEntranceScreen = false)
    (h : UpdateBrowsing B m msg = some r) : TagsInv r.1 := by
  unfold UpdateBrowsing at h
  cases msg with
  | postsFetched posts =>
    intro h1
    rw [UpdatePostsFetched_showTags B m posts r h] at h1; cases h1
  | key s =>
    simp only [] at h
    split_ifs at h
    · unfold UpdateKeyFocused finishUpdate clearResults at h
      simp only [] at h
      intro h1
      split_ifs at h <;> cases h <;> simp only [] at h1 <;> rw [hT] at h1 <;> cases h1
    · exact UpdateKeyUnfocused_tags B m s r hT hE h
  | spinnerTick =>
    simp only [] at h
    intro h1
    split_ifs at h <;> cases h <;> simp only [] at h1 <;> rw [hT] at h1 <;> cases h1
  | _ =>
    unfold finishUpdate at h
    cases h
    intro h1; simp only [] at h1; rw [hT] at h1; cases h1

theorem TagsInv_Update (B : Bubbles) (m : model) (msg : Msg)
    (r : model × List Cmd) (hi : TagsInv m) (h : Update B m msg = some r) : TagsInv r.1 := by
  unfold Update at h
  split_ifs at h with hE hT hk
  · cases h
    have hs : m.showTags = false := by
      cases hs : m.showTags with
      | false => rfl
      | true => have := (hi hs).2; rw [hE] at this; cases this
    intro h1
    rw [(updateEntrance_frame B m msg).2.2.2.2.1, hs] at h1
    cases h1
  · cases h
    intro h1; cases h1
  · cases h
    intro _
    exact hi hT
  · exact UpdateBrowsing_tags B m msg r (by simpa using hT) (by simpa using hE) h

theorem TagsInv_run (B : Bubbles) (w h : Int) (msgs : List Msg) (m : model)
    (hr : run B (teaHandler w h) msgs = some m) : TagsInv m := by
  refine run_induction B TagsInv ?_ msgs (teaHandler w h) m ?_ hr
  · intro m0 msg r hm0 hstep
    exact TagsInv_Update B m0 msg r hm0 hstep
  · intro h1
    simp [teaHandler, initialModel] at h1

end E621

namespace E621

/-- C11: what the code does at the failing inputs. The copy key sets the status message
and schedules its expiry after 2 seconds. When the expiry arrives while the tag popup is
open, on the entrance menu, or in the quit prompt, the message is not cleared: those
modes return before the `clearStatusMsg` case, and the message is still there after the
popup closes. In Browsing with the popup closed the expiry clears it. -/
theorem status_expiry_is_dropped :
    (runLoop Bubbles.basic (teaHandler 80 24) (wolfSearch ++ [Msg.key "c"])).map
        (fun r => (r.1.statusMessage, r.2.reverse.head?)) =
      some ("Copied link to clipboard!", some (Cmd.clearStatus 2)) ∧
    (run Bubbles.basic (teaHandler 80 24)
        (wolfSearch ++ [Msg.key "c", Msg.key "t", Msg.clearStatus])).map
        (fun m => (m.showTags, m.statusMessage)) = some (true, "Copied link to clipboard!") ∧
    (run Bubbles.basic (teaHandler 80 24)
        (wolfSearch ++ [Msg.key "c", Msg.key "t", Msg.clearStatus, Msg.key "t"])).map
        (fun m => (m.showTags, m.statusMessage)) = some (false, "Copied link to clipboard!") ∧
    (run Bubbles.basic (teaHandler 80 24)
        (wolfSearch ++ [Msg.key "c", Msg.key "q", Msg.clearStatus])).map
        (fun m => (m.onEntranceScreen, m.quitting, m.statusMessage)) =
      some (true, false, "Copied link to clipboard!") ∧
    (run Bubbles.basic (teaHandler 80 24)
        (wolfSearch ++ [Msg.key "c", Msg.key "q", Msg.key "esc", Msg.clearStatus])).map
        (fun m => (m.onEntranceScreen, m.quitting, m.statusMessage)) =
      some (true, true, "Copied link to clipboard!") ∧
    (run Bubbles.basic (teaHandler 80 24)
        (wolfSearch ++ [Msg.key "c", Msg.clearStatus])).map
        (fun m => m.statusMessage) = some "" := by
  refine ⟨by decide, by decide, by decide, by decide, by decide, by decide⟩

/-- C15. In every state reached from the initial model of a session in which the tag
popup is open, the results are non-empty and the session is not on the entrance screen.
In such a state every message is handled without changing `posts`, `query`,
`currentPage` or `loading`; a step changes `showTags` only for the keys `t` and `esc`,
and each of these two keys sets it to false. -/
theorem tag_popup_is_modal (B : Bubbles) (w h : Int) (msgs : List Msg) (m : model)
    (hr : run B (teaHandler w h) msgs = some m) (hT : m.showTags = true) :
    (m.posts ≠ [] ∧ m.onEntranceScreen = false) ∧
    (∀ msg, ∃ r, Update B m msg = some r ∧ r.1.posts = m.posts ∧ r.1.query = m.query ∧
      r.1.currentPage = m.currentPage ∧ r.1.loading = m.loading ∧
      (r.1.showTags ≠ m.showTags → msg = Msg.key "t" ∨ msg = Msg.key "esc")) ∧
    (∀ k, k = "t" ∨ k = "esc" →
      ∃ r, Update B m (Msg.key k) = some r ∧ r.1.showTags = false) := by
  have hi := TagsInv_run B w h msgs m hr hT
  refine ⟨hi, ?_, ?_⟩
  · intro msg
    unfold Update
    rw [if_neg (by simp [hi.2]), if_pos hT]
    split_ifs with hk
    · exact ⟨_, rfl, rfl, rfl, rfl, rfl, fun _ => hk⟩
    · exact ⟨_, rfl, rfl, rfl, rfl, rfl, fun hne => absurd rfl hne⟩
  · intro k hk
    unfold Update
    rw [if_neg (by simp [hi.2]), if_pos hT]
    rw [if_pos (by rcases hk with rfl | rfl <;> simp)]
    exact ⟨_, rfl, rfl⟩

theorem tag_popup_is_modal_witness :
    run Bubbles.basic (teaHandler 80 24) (wolfSearch ++ [Msg.key "t"]) = some wolfTagsOpen ∧
    wolfTagsOpen.showTags = true ∧
    ((wolfTagsOpen.posts ≠ [] ∧ wolfTagsOpen.onEntranceScreen = false) ∧
      (∀ msg, ∃ r, Update Bubbles.basic wolfTagsOpen msg = some r ∧
        r.1.posts = wolfTagsOpen.posts ∧ r.1.query = wolfTagsOpen.query ∧
        r.1.currentPage = wolfTagsOpen.currentPage ∧ r.1.loading = wolfTagsOpen.loading ∧
        (r.1.showTags ≠ wolfTagsOpen.showTags → msg = Msg.key "t" ∨ msg = Msg.key "esc")) ∧
      (∀ k, k = "t" ∨ k = "esc" →
        ∃ r, Update Bubbles.basic wolfTagsOpen (Msg.key k) = some r ∧ r.1.showTags = false)) :=
  ⟨by decide, by decide,
    tag_popup_is_modal Bubbles.basic 80 24 (wolfSearch ++ [Msg.key "t"]) wolfTagsOpen
      (by decide) (by decide)⟩

/-- C12. For every state whose cursor is a valid index into `posts`,
`triggerPreviewUpdate` succeeds and sets `currentTags` to the selected post's general,
species, character, copyright and artist tags, concatenated in that order and joined
with a comma and a space; the invalid, lore and meta tags are not part of it. The
toggle-tags key, which is the key `t` when the session is not on the entrance screen and
the search box is not focused, flips `showTags` if and only if `posts` is non-empty: with
the popup closed in every state, and with the popup open in every reachable state. -/
theorem tags_joined_and_toggled (B : Bubbles) (m : model) :
    (∀ p, goIndex m.posts m.postTable.cursor = some p →
      ∃ r, triggerPreviewUpdate B m = some r ∧
        r.1.currentTags = ", ".intercalate (p.Tags.General ++ p.Tags.Species ++
          p.Tags.Character ++ p.Tags.Copyright ++ p.Tags.Artist)) ∧
    (m.onEntranceScreen = false → m.showTags = false → m.searchBox.focus = false →
      ∃ r, Update B m (Msg.key "t") = some r ∧
        (r.1.showTags = (!m.showTags) ↔ m.posts ≠ []) ∧
        (m.posts = [] → r.1.showTags = m.showTags)) ∧
    (∀ w h msgs, run B (teaHandler w h) msgs = some m → m.showTags = true →
      ∃ r, Update B m (Msg.key "t") = some r ∧
        (r.1.showTags = (!m.showTags) ↔ m.posts ≠ [])) := by
  refine ⟨?_, ?_, ?_⟩
  · intro p hp
    have hlt : ¬ m.postTable.Cursor ≥ (m.posts.length : Int) := by
      unfold goIndex at hp
      split_ifs at hp with hneg
      have := (List.getElem?_eq_some_iff.mp hp).1
      simp only [tableModel.Cursor]
      omega
    have hp1 : goIndex m.posts m.postTable.Cursor = some p := hp
    unfold triggerPreviewUpdate
    rw [if_neg hlt, hp1]
    exact ⟨_, rfl, rfl⟩
  · intro hE hT hF
    have hU : Update B m (Msg.key "t") = UpdateKeyTags B m := by
      simp [Update, UpdateBrowsing, UpdateKeyUnfocused, hE, hT, hF]
    rw [hU, UpdateKeyTags_result]
    refine ⟨_, rfl, ?_, ?_⟩
    · split_ifs with hp
      · simp only [List.length_pos] at hp
        simp [hp]
      · have hp1 : m.posts = [] := by
          cases hmp : m.posts with
          | nil => rfl
          | cons a l => rw [hmp] at hp; simp at hp
        simp only [finishUpdate, hp1]
        cases m.showTags <;> simp
    · intro hp
      simp [hp, finishUpdate]
  · intro w h msgs hr hT
    have hi := TagsInv_run B w h msgs m hr hT
    refine ⟨({ m with showTags := false }, []), ?_, ?_⟩
    · simp [Update, hi.2, hT]
    · simp [hT, hi.1]

theorem tags_joined_and_toggled_witness :
    goIndex wolfResults.posts wolfResults.postTable.cursor =
      some (samplePost 101 [] "f101" "s101" true) ∧
    (samplePost 101 [] "f101" "s101" true).Tags.Meta = ["hi_res"] ∧
    ∃ r, triggerPreviewUpdate Bubbles.basic wolfResults = some r ∧
      r.1.currentTags = ", ".intercalate (["fur"] ++ ["wolf"] ++ [] ++ [] ++ ["ann"]) :=
  ⟨by decide, by decide,
    (tags_joined_and_toggled Bubbles.basic wolfResults).1
      (samplePost 101 [] "f101" "s101" true) (by decide)⟩

/-! ## Guarded reads of the results -/

theorem UpdateKeyCopy_total (B : Bubbles) (m : model) (h0 : 0 ≤ m.postTable.cursor) :
    ∃ r, UpdateKeyCopy B m = some r := by
  unfold UpdateKeyCopy
  simp only []
  split_ifs with hc
  · obtain ⟨p, hp⟩ := goIndex_isSome m.posts m.postTable.Cursor h0 hc.2
    rw [hp]
    exact ⟨_, rfl⟩
  · exact ⟨_, rfl⟩

theorem UpdateKeyPool_total (B : Bubbles) (m : model) (h0 : 0 ≤ m.postTable.cursor) :
    ∃ r, UpdateKeyPool B m = some r := by
  unfold UpdateKeyPool
  simp only []
  split_ifs with hc
  · obtain ⟨p, hp⟩ := goIndex_isSome m.posts m.postTable.Cursor h0 hc.2.2
    rw [hp]
    simp only []
    split
    · exact ⟨_, rfl⟩
    · split_ifs <;> exact ⟨_, rfl⟩
  · exact ⟨_, rfl⟩

theorem statusBarView_total (q : String) (m : model) (h0 : 0 ≤ m.postTable.cursor) :
    ∃ s, statusBarView q m = some s := by
  have key : (m.loading = false ∧ m.posts.length > 0 ∧
      m.postTable.Cursor < (m.posts.length : Int)) →
      ∃ p, goIndex m.posts m.postTable.Cursor = some p :=
    fun hc => goIndex_isSome m.posts m.postTable.Cursor h0 hc.2.2
  unfold statusBarView
  simp only []
  split_ifs
  all_goals first
    | exact ⟨_, rfl⟩
    | (obtain ⟨p, hp⟩ := key (by assumption)
       rw [hp]
       exact ⟨_, rfl⟩)

theorem UpdateKeyFullImage_total (B : Bubbles) (m : model) (h0 : 0 ≤ m.postTable.cursor) :
    ∃ r, UpdateKeyFullImage B m = some r := by
  unfold UpdateKeyFullImage
  simp only []
  split_ifs
  · obtain ⟨r, hr⟩ := triggerPreviewUpdate_total B { m with showFullImage := !m.showFullImage } h0
    rw [hr]
    exact ⟨_, rfl⟩
  · exact ⟨_, rfl⟩

theorem UpdateKeyTable_total (B : Bubbles) (m : model) (s : String)
    (h0 : 0 ≤ m.postTable.cursor) (hrows : m.postTable.rows.length = m.posts.length) :
    ∃ r, UpdateKeyTable B m s = some r := by
  unfold UpdateKeyTable
  simp only []
  split_ifs with hL hc
  · have hcur : 0 ≤ (m.postTable.Update (Msg.key s)).cursor := by
      obtain ⟨-, -, h3⟩ := tableUpdate_frame m.postTable (Msg.key s)
      rcases h3 with h3 | ⟨v, h3⟩
      · rw [h3]; exact h0
      · rw [h3]
        exact (clamp_range v m.postTable.rows.length (by rw [hrows]; exact hc.2)).1
    obtain ⟨r, hr⟩ := triggerPreviewUpdate_total B
      { m with postTable := m.postTable.Update (Msg.key s) } hcur
    rw [hr]
    exact ⟨_, rfl⟩
  · exact ⟨_, rfl⟩
  · exact ⟨_, rfl⟩

theorem UpdateKeyUnfocused_total (B : Bubbles) (m : model) (s : String)
    (h0 : 0 ≤ m.postTable.cursor) (hrows : m.postTable.rows.length = m.posts.length) :
    ∃ r, UpdateKeyUnfocused B m s = some r := by
  unfold UpdateKeyUnfocused
  split_ifs
  · exact ⟨_, rfl⟩
  · exact UpdateKeyCopy_total B m h0
  · exact ⟨_, rfl⟩
  · exact ⟨_, rfl⟩
  · exact UpdateKeyFullImage_total B m h0
  · exact UpdateKeyPool_total B m h0
  · rw [UpdateKeyTags_result]; exact ⟨_, rfl⟩
  · exact ⟨_, rfl⟩
  · exact ⟨_, rfl⟩
  · exact UpdateKeyTable_total B m s h0 hrows

theorem relocateCursor_nonneg (m : model) (posts : List Post) (h0 : 0 ≤ m.postTable.cursor) :
    0 ≤ (relocateCursor (storeResults m posts)).postTable.cursor ∨ posts = [] := by
  cases posts with
  | nil => exact Or.inr rfl
  | cons p ps =>
    left
    unfold relocateCursor
    split_ifs
    · obtain ⟨-, -, h3⟩ := jumpLoop_frame (storeResults m (p :: ps)).jumpToPostID
        (storeResults m (p :: ps)).postTable (storeResults m (p :: ps)).posts 0
      simp only []
      rcases h3 with h3 | ⟨v, h3⟩
      · rw [h3]; exact h0
      · rw [h3]
        have hlen : (storeResults m (p :: ps)).postTable.rows.length = (ps.length + 1) := by
          simp [storeResults, tableModel.SetRows]
        rw [hlen]
        exact (clamp_range v (ps.length + 1) (Nat.succ_pos _)).1
    · exact h0

/-- With a non-negative cursor and one table row per post, no message makes `Update`
read `posts` out of range. -/
theorem Update_total (B : Bubbles) (m : model) (msg : Msg)
    (h0 : 0 ≤ m.postTable.cursor) (hrows : m.postTable.rows.length = m.posts.length) :
    ∃ r, Update B m msg = some r := by
  unfold Update
  split_ifs
  · exact ⟨_, rfl⟩
  · exact ⟨_, rfl⟩
  · exact ⟨_, rfl⟩
  · unfold UpdateBrowsing
    cases msg with
    | postsFetched posts =>
      exact UpdatePostsFetched_total B m posts (relocateCursor_nonneg m posts h0)
    | key s =>
      simp only []
      split_ifs
      · unfold UpdateKeyFocused
        simp only []
        split_ifs <;> exact ⟨_, rfl⟩
      · exact UpdateKeyUnfocused_total B m s h0 hrows
    | spinnerTick =>
      simp only []
      split_ifs <;> exact ⟨_, rfl⟩
    | _ => exact ⟨_, rfl⟩

/-- C14. For every state whose table cursor is not negative, no read of `posts[cursor]`
is out of range: `triggerPreviewUpdate`, the copy-link key, the pool-view key and
`statusBarView` all succeed, and when `cursor ≥ len(posts)` they do not read at all:
`triggerPreviewUpdate` returns no command and leaves the state as it is, the two keys
change nothing and schedule nothing. When the table holds one row per post (as in every
reachable state), `Update` succeeds on every message. -/
theorem reads_are_guarded (B : Bubbles) (m : model) (h0 : 0 ≤ m.postTable.cursor) :
    ((∃ r, triggerPreviewUpdate B m = some r) ∧ (∃ r, UpdateKeyCopy B m = some r) ∧
      (∃ r, UpdateKeyPool B m = some r) ∧ (∀ q, ∃ s, statusBarView q m = some s)) ∧
    ((m.posts.length : Int) ≤ m.postTable.cursor →
      triggerPreviewUpdate B m = some (m, []) ∧
      UpdateKeyCopy B m = finishUpdate B m (Msg.key "c") [] ∧
      UpdateKeyPool B m = finishUpdate B m (Msg.key "p") []) ∧
    (m.postTable.rows.length = m.posts.length → ∀ msg, ∃ r, Update B m msg = some r) := by
  refine ⟨⟨triggerPreviewUpdate_total B m h0, UpdateKeyCopy_total B m h0,
    UpdateKeyPool_total B m h0, fun q => statusBarView_total q m h0⟩, ?_,
    fun hrows msg => Update_total B m msg h0 hrows⟩
  intro hge
  refine ⟨?_, ?_, ?_⟩
  · unfold triggerPreviewUpdate
    rw [if_pos (by simpa [tableModel.Cursor] using hge)]
  · unfold UpdateKeyCopy
    simp only []
    rw [if_neg (by simp only [tableModel.Cursor]; omega)]
  · unfold UpdateKeyPool
    simp only []
    rw [if_neg (by simp only [tableModel.Cursor]; omega)]

theorem reads_are_guarded_witness :
    0 ≤ wolfPoolShown.postTable.cursor ∧
    statusBarView "" wolfPoolShown =
      some ("↑/↓: nav | c: copy url | /: filter | r: refresh | e: full/[sample]" ++
        " | t: show tags popup | p: view pool | esc: back to menu") ∧
    ((∃ r, triggerPreviewUpdate Bubbles.basic wolfPoolShown = some r) ∧
      (∃ r, UpdateKeyCopy Bubbles.basic wolfPoolShown = some r) ∧
      (∃ r, UpdateKeyPool Bubbles.basic wolfPoolShown = some r) ∧
      (∀ q, ∃ s, statusBarView q wolfPoolShown = some s)) :=
  ⟨by decide, by decide, (reads_are_guarded Bubbles.basic wolfPoolShown (by decide)).1⟩

/-! ## Filter highlighting -/

end E621

namespace E621

theorem nonSpaceRun_cons (c : Char) (cs : List Char) :
    nonSpaceRun (c :: cs) = if isSpace c = true then [] else c :: nonSpaceRun cs := by
  unfold nonSpaceRun
  rw [List.takeWhile_cons]
  cases isSpace c <;> simp

/-- What follows the leading run of non-space characters starts with whitespace. -/
theorem nonSpaceRun_dropWhile (cs : List Char) :
    nonSpaceRun (cs.dropWhile (fun c => !isSpace c)) = [] := by
  induction cs with
  | nil => rfl
  | cons c cs ih =>
    rw [List.dropWhile_cons]
    cases hc : isSpace c with
    | true => simp [nonSpaceRun, hc]
    | false => simpa [hc] using ih

theorem mem_nonSpaceRun (cs : List Char) (c : Char) (h : c ∈ nonSpaceRun cs) :
    isSpace c = false := by
  have := List.mem_takeWhile_imp h
  simpa using this

theorem splitLastColon_cons (c : Char) (cs : List Char) :
    splitLastColon (c :: cs) =
      match splitLastColon cs with
      | some (key, value) => some (c :: key, value)
      | none => if c = ':' then some ([], cs) else none := rfl

/-- A list with a colon splits at its last colon. -/
theorem exists_last_colon (l : List Char) (h : ':' ∈ l) :
    ∃ k v, l = k ++ ':' :: v ∧ ':' ∉ v := by
  induction l with
  | nil => simp at h
  | cons a l ih =>
    by_cases hl : (':' : Char) ∈ l
    · obtain ⟨k, v, h1, h2⟩ := ih hl
      exact ⟨a :: k, v, by rw [h1]; rfl, h2⟩
    · have ha : a = ':' := by
        rcases List.mem_cons.mp h with h | h
        · exact h.symm
        · exact absurd h hl
      exact ⟨[], l, by rw [ha]; rfl, hl⟩

/-- The defining property of `splitLastColon`: the token is key, colon, value, and the
value has no colon. -/
theorem splitLastColon_some (tok key value : List Char) :
    splitLastColon tok = some (key, value) ↔ tok = key ++ ':' :: value ∧ ':' ∉ value := by
  induction tok generalizing key value with
  | nil => simp [splitLastColon]
  | cons c cs ih =>
    rw [splitLastColon_cons]
    cases hs : splitLastColon cs with
    | some kv =>
      obtain ⟨k, v⟩ := kv
      have hkv := (ih k v).mp hs
      simp only [Option.some.injEq, Prod.mk.injEq]
      constructor
      · rintro ⟨rfl, rfl⟩
        exact ⟨by rw [hkv.1]; rfl, hkv.2⟩
      · rintro ⟨h1, h2⟩
        cases key with
        | nil =>
          simp only [List.nil_append, List.cons.injEq] at h1
          obtain ⟨-, h1⟩ := h1
          exfalso
          have : (':' : Char) ∈ value := by rw [← h1, hkv.1]; simp
          exact h2 this
        | cons a key1 =>
          simp only [List.cons_append, List.cons.injEq] at h1
          obtain ⟨rfl, h1⟩ := h1
          have := (ih key1 value).mpr ⟨h1, h2⟩
          rw [hs] at this
          simp only [Option.some.injEq, Prod.mk.injEq] at this
          exact ⟨by rw [this.1], this.2⟩
    | none =>
      simp only []
      have hnone : ∀ k v, ¬ (cs = k ++ ':' :: v ∧ ':' ∉ v) := by
        intro k v hkv
        have := (ih k v).mpr hkv
        rw [hs] at this
        cases this
      have hfree : ':' ∉ cs := by
        intro hmem
        obtain ⟨k, v, hkv⟩ := exists_last_colon cs hmem
        exact hnone k v hkv
      constructor
      · intro h
        split_ifs at h with hc
        simp only [Option.some.injEq, Prod.mk.injEq] at h
        rw [← h.1, ← h.2]
        exact ⟨by rw [hc]; rfl, hfree⟩
      · rintro ⟨h1, h2⟩
        cases key with
        | nil =>
          simp only [List.nil_append, List.cons.injEq] at h1
          rw [h1.1, h1.2]
          simp
        | cons a key1 =>
          simp only [List.cons_append, List.cons.injEq] at h1
          exact absurd ⟨h1.2, h2⟩ (hnone key1 value)

theorem matchKey_cons (c : Char) (cs : List Char) :
    matchKey (c :: cs) =
      if isSpace c = true then none
      else
        match matchKey cs with
        | some (key, rest) => some (c :: key, rest)
        | none => if c = ':' then some ([], cs) else none := rfl

/-- The backtracking match of the key group finds the last colon of the leading token. -/
theorem matchKey_eq (cs : List Char) :
    matchKey cs = (splitLastColon (nonSpaceRun cs)).map
      (fun kv => (kv.1, kv.2 ++ cs.dropWhile (fun c => !isSpace c))) := by
  induction cs with
  | nil => rfl
  | cons c cs ih =>
    rw [matchKey_cons, nonSpaceRun_cons, List.dropWhile_cons]
    cases hc : isSpace c with
    | true => simp [splitLastColon]
    | false =>
      simp only [Bool.false_eq_true, if_false, Bool.not_false, if_true]
      rw [ih, splitLastColon_cons]
      cases hs : splitLastColon (nonSpaceRun cs) with
      | some kv => rfl
      | none =>
        simp only [Option.map_none']
        split_ifs with hcolon
        · simp only [Option.map_some', Option.some.injEq, Prod.mk.injEq, true_and]
          exact (List.takeWhile_append_dropWhile _ cs).symm
        · rfl

/-- The match at a position is the leading token split at its last colon. -/
theorem matchHere_eq (cs : List Char) : matchHere cs = splitLastColon (nonSpaceRun cs) := by
  unfold matchHere
  rw [matchKey_eq]
  cases hs : splitLastColon (nonSpaceRun cs) with
  | none => rfl
  | some kv =>
    obtain ⟨k, v⟩ := kv
    simp only [Option.map_some']
    have hkv := (splitLastColon_some _ k v).mp hs
    have hv : ∀ a ∈ v, (fun c => !isSpace c) a = true := by
      intro a ha
      have : a ∈ nonSpaceRun cs := by rw [hkv.1]; simp [ha]
      simp [mem_nonSpaceRun cs a this]
    have h1 : nonSpaceRun (v ++ cs.dropWhile (fun c => !isSpace c)) = v := by
      unfold nonSpaceRun
      rw [List.takeWhile_append_of_pos hv]
      have := nonSpaceRun_dropWhile cs
      unfold nonSpaceRun at this
      rw [this, List.append_nil]
    rw [h1]

theorem splitLastColon_length (tok key value : List Char)
    (h : splitLastColon tok = some (key, value)) : key.length + value.length + 1 = tok.length := by
  have := ((splitLastColon_some tok key value).mp h).1
  rw [this]
  simp
  omega

theorem splitLastColon_none (tok : List Char) (h : ':' ∉ tok) : splitLastColon tok = none := by
  cases hs : splitLastColon tok with
  | none => rfl
  | some kv =>
    obtain ⟨k, v⟩ := kv
    have := ((splitLastColon_some tok k v).mp hs).1
    exfalso
    apply h
    rw [this]
    simp

theorem findAllFrom_zero (pos : Nat) (c : Char) (rest : List Char) :
    findAllFrom 0 pos (c :: rest) =
      match matchHere (c :: rest) with
      | some (key, value) =>
        Submatch.ofGroups pos key value ::
          findAllFrom (key.length + value.length) (pos + c.utf8Size) rest
      | none => findAllFrom 0 (pos + c.utf8Size) rest := rfl

theorem tokenSpansFrom_zero (pos : Nat) (c : Char) (rest : List Char) :
    tokenSpansFrom 0 pos (c :: rest) =
      if isSpace c = true then tokenSpansFrom 0 (pos + c.utf8Size) rest
      else
        match splitLastColon (nonSpaceRun (c :: rest)) with
        | some (key, value) =>
          Submatch.ofGroups pos key value ::
            tokenSpansFrom (nonSpaceRun rest).length (pos + c.utf8Size) rest
        | none => tokenSpansFrom (nonSpaceRun rest).length (pos + c.utf8Size) rest := rfl

theorem tokenSpansFrom_succ (n pos : Nat) (c : Char) (rest : List Char) :
    tokenSpansFrom (n + 1) pos (c :: rest) = tokenSpansFrom n (pos + c.utf8Size) rest := rfl

theorem findAllFrom_succ (n pos : Nat) (c : Char) (rest : List Char) :
    findAllFrom (n + 1) pos (c :: rest) = findAllFrom n (pos + c.utf8Size) rest := rfl

/-- The scan and the token-wise description agree from every text on, and inside a
token without a colon the scan finds nothing. -/
theorem findAllFrom_eq (cs : List Char) :
    ∀ pos, (∀ n, findAllFrom n pos cs = tokenSpansFrom n pos cs) ∧
      (':' ∉ nonSpaceRun cs →
        findAllFrom 0 pos cs = tokenSpansFrom (nonSpaceRun cs).length pos cs) := by
  induction cs with
  | nil =>
    intro pos
    constructor
    · intro n; cases n <;> rfl
    · intro _; rfl
  | cons c rest ih =>
    intro pos
    have hzero : findAllFrom 0 pos (c :: rest) = tokenSpansFrom 0 pos (c :: rest) := by
      rw [findAllFrom_zero, tokenSpansFrom_zero, matchHere_eq]
      cases hc : isSpace c with
      | true =>
        rw [nonSpaceRun_cons, hc]
        simp only [if_true, splitLastColon]
        exact (ih (pos + c.utf8Size)).1 0
      | false =>
        simp only [Bool.false_eq_true, if_false]
        cases hs : splitLastColon (nonSpaceRun (c :: rest)) with
        | some kv =>
          obtain ⟨k, v⟩ := kv
          simp only []
          have hlen := splitLastColon_length _ k v hs
          rw [nonSpaceRun_cons, hc] at hlen
          simp only [Bool.false_eq_true, if_false, List.length_cons] at hlen
          have hl : k.length + v.length = (nonSpaceRun rest).length := by omega
          rw [hl, (ih (pos + c.utf8Size)).1]
        | none =>
          simp only []
          have hfree : ':' ∉ nonSpaceRun rest := by
            intro hmem
            have hmem1 : ':' ∈ nonSpaceRun (c :: rest) := by
              rw [nonSpaceRun_cons, hc]
              simp [hmem]
            obtain ⟨k, v, hkv⟩ := exists_last_colon _ hmem1
            have := (splitLastColon_some _ k v).mpr hkv
            rw [hs] at this
            cases this
          exact (ih (pos + c.utf8Size)).2 hfree
    constructor
    · intro n
      cases n with
      | zero => exact hzero
      | succ n =>
        rw [findAllFrom_succ, tokenSpansFrom_succ]
        exact (ih (pos + c.utf8Size)).1 n
    · intro hfree
      rw [nonSpaceRun_cons] at hfree ⊢
      cases hc : isSpace c with
      | true =>
        simp only [if_true, List.length_nil]
        exact hzero
      | false =>
        rw [hc] at hfree
        simp only [Bool.false_eq_true, if_false, List.length_cons] at hfree ⊢
        have hfree1 : ':' ∉ nonSpaceRun rest := fun h => hfree (List.mem_cons_of_mem c h)
        rw [findAllFrom_zero, tokenSpansFrom_succ, matchHere_eq, splitLastColon_none _ (by
          rw [nonSpaceRun_cons, hc]
          simpa using hfree)]
        exact (ih (pos + c.utf8Size)).2 hfree1

end E621

namespace E621

theorem tokenSpansFrom_skip (xs rest : List Char) :
    ∀ pos, tokenSpansFrom xs.length pos (xs ++ rest) =
      tokenSpansFrom 0 (pos + utf8Len xs) rest := by
  induction xs with
  | nil => intro pos; simp [utf8Len]
  | cons x xs ih =>
    intro pos
    rw [List.length_cons, List.cons_append, tokenSpansFrom_succ, ih]
    simp only [utf8Len, List.map_cons, List.sum_cons]
    rw [Nat.add_assoc]

theorem nonSpaceRun_token (tok rest : List Char) (htok : ∀ c ∈ tok, isSpace c = false)
    (hrest : ∀ c, rest.head? = some c → isSpace c = true) : nonSpaceRun (tok ++ rest) = tok := by
  unfold nonSpaceRun
  rw [List.takeWhile_append_of_pos (by intro a ha; simp [htok a ha])]
  cases rest with
  | nil => simp
  | cons r rs =>
    have := hrest r rfl
    simp [List.takeWhile_cons, this]

/-- The scan, token by token: a token followed by whitespace or the end of the text
gives the match of its split at the last colon, if it has a colon, and nothing
otherwise; the scan goes on behind the token. -/
theorem findAllFrom_token (pos : Nat) (tok rest : List Char) (hne : tok ≠ [])
    (htok : ∀ c ∈ tok, isSpace c = false)
    (hrest : ∀ c, rest.head? = some c → isSpace c = true) :
    findAllFrom 0 pos (tok ++ rest) =
      (match splitLastColon tok with
        | some (key, value) => [Submatch.ofGroups pos key value]
        | none => []) ++ findAllFrom 0 (pos + utf8Len tok) rest := by
  cases tok with
  | nil => exact absurd rfl hne
  | cons c t =>
    have hc : isSpace c = false := htok c (List.mem_cons_self _ _)
    have ht : ∀ a ∈ t, isSpace a = false := fun a ha => htok a (List.mem_cons_of_mem _ ha)
    rw [(findAllFrom_eq _ pos).1 0, (findAllFrom_eq rest _).1 0, List.cons_append,
      tokenSpansFrom_zero, hc]
    simp only [Bool.false_eq_true, if_false]
    rw [← List.cons_append, nonSpaceRun_token (c :: t) rest htok hrest,
      nonSpaceRun_token t rest ht hrest, tokenSpansFrom_skip]
    have hlen : pos + c.utf8Size + utf8Len t = pos + utf8Len (c :: t) := by
      simp only [utf8Len, List.map_cons, List.sum_cons]
      omega
    rw [hlen]
    cases splitLastColon (c :: t) with
    | none => rfl
    | some kv => rfl

/-- The scan steps over whitespace. -/
theorem findAllFrom_space (pos : Nat) (c : Char) (rest : List Char) (hc : isSpace c = true) :
    findAllFrom 0 pos (c :: rest) = findAllFrom 0 (pos + c.utf8Size) rest := by
  rw [findAllFrom_zero, matchHere_eq, nonSpaceRun_cons, hc]
  rfl

end E621

namespace E621

theorem foldl_setStyles_some (i : Nat) (locs : List Submatch) :
    ∀ (entry : Option Style) (s : Style), locs.foldl (setStyles i) entry = some s →
      entry = some s ∨ ∃ loc ∈ locs,
        (s = Style.keyStyle ∧ loc.keyStart ≤ i ∧ i < loc.keyEnd) ∨
        (s = Style.valueStyle ∧ loc.valueStart ≤ i ∧ i < loc.valueEnd) := by
  induction locs with
  | nil => intro entry s h; exact Or.inl h
  | cons loc rest ih =>
    intro entry s h
    rw [List.foldl_cons] at h
    rcases ih _ s h with h1 | ⟨l, hl, h1⟩
    · unfold setStyles at h1
      split_ifs at h1 with hv hk
      · cases h1
        exact Or.inr ⟨loc, List.mem_cons_self _ _, Or.inr ⟨rfl, hv⟩⟩
      · cases h1
        exact Or.inr ⟨loc, List.mem_cons_self _ _, Or.inl ⟨rfl, hk⟩⟩
      · exact Or.inl h1
    · exact Or.inr ⟨l, List.mem_cons_of_mem _ hl, h1⟩

theorem foldl_setStyles_marked (i : Nat) (locs : List Submatch) :
    ∀ (entry : Option Style),
      (entry ≠ none ∨ ∃ loc ∈ locs,
        (loc.keyStart ≤ i ∧ i < loc.keyEnd) ∨ (loc.valueStart ≤ i ∧ i < loc.valueEnd)) →
      locs.foldl (setStyles i) entry ≠ none := by
  induction locs with
  | nil =>
    intro entry h
    rcases h with h | ⟨l, hl, -⟩
    · exact h
    · simp at hl
  | cons loc rest ih =>
    intro entry h
    rw [List.foldl_cons]
    apply ih
    by_cases hhere : (loc.keyStart ≤ i ∧ i < loc.keyEnd) ∨ (loc.valueStart ≤ i ∧ i < loc.valueEnd)
    · left
      unfold setStyles
      split_ifs with hv hk
      · simp
      · simp
      · rcases hhere with hk1 | hv1
        · exact absurd hk1 hk
        · exact absurd hv1 hv
    · rcases h with h | ⟨l, hl, hspan⟩
      · left
        unfold setStyles
        split_ifs <;> simp [h]
      · rcases List.mem_cons.mp hl with rfl | hl
        · exact absurd hspan hhere
        · exact Or.inr ⟨l, hl, hspan⟩

/-- C13, as stated, fails. The pattern of `filterRegex` is `\S*:\S*`: in the token
`order:`, whose value is empty, the key `order` is found and its five bytes are marked
as key; in the token `:rank` of the text `fox :rank`, whose key is empty, the value
`rank` is found and marked as value. -/
theorem empty_key_or_value_is_marked :
    FindAllStringSubmatchIndex "order:" = [Submatch.ofGroups 0 "order".toList []] ∧
    (List.range 6).map (styleMap "order:") =
      [some Style.keyStyle, some Style.keyStyle, some Style.keyStyle, some Style.keyStyle,
       some Style.keyStyle, none] ∧
    FindAllStringSubmatchIndex "fox :rank" = [Submatch.ofGroups 4 [] "rank".toList] ∧
    (List.range 9).map (styleMap "fox :rank") =
      [none, none, none, none, none, some Style.valueStyle, some Style.valueStyle,
       some Style.valueStyle, some Style.valueStyle] := by
  refine ⟨by decide, by decide, by decide, by decide⟩

/-- C13, amended. For every search text the scan finds one match for each
whitespace-delimited token that contains a colon (pattern `\S*:\S*`), in the order of the
text: the key is the part of the token before its last colon, the value the part after
it, and either may be empty; a token without a colon gives no match, and whitespace is
stepped over. The bytes of the key spans and of the value spans, and no
other bytes, receive a style: key style only inside a key span, value style only inside
a value span; so nothing is marked in a token without a colon. For the text
`fox order:rank` there is exactly one match, key `order` (bytes 4 to 8) and value `rank`
(bytes 10 to 13), and `fox` is left as plain text. -/
theorem filter_scan_marks_colon_tokens (val : String) :
    FindAllStringSubmatchIndex val = tokenSpans val ∧
    (∀ pos tok rest, tok ≠ [] → (∀ c ∈ tok, isSpace c = false) →
      (∀ c, rest.head? = some c → isSpace c = true) →
      findAllFrom 0 pos (tok ++ rest) =
        (match splitLastColon tok with
          | some (key, value) => [Submatch.ofGroups pos key value]
          | none => []) ++ findAllFrom 0 (pos + utf8Len tok) rest) ∧
    (∀ pos c rest, isSpace c = true →
      findAllFrom 0 pos (c :: rest) = findAllFrom 0 (pos + c.utf8Size) rest) ∧
    (∀ tok key value, splitLastColon tok = some (key, value) ↔
      tok = key ++ ':' :: value ∧ ':' ∉ value) ∧
    (∀ i s, styleMap val i = some s → ∃ loc ∈ FindAllStringSubmatchIndex val,
      (s = Style.keyStyle ∧ loc.keyStart ≤ i ∧ i < loc.keyEnd) ∨
      (s = Style.valueStyle ∧ loc.valueStart ≤ i ∧ i < loc.valueEnd)) ∧
    (∀ i, (∃ loc ∈ FindAllStringSubmatchIndex val,
      (loc.keyStart ≤ i ∧ i < loc.keyEnd) ∨ (loc.valueStart ≤ i ∧ i < loc.valueEnd)) →
      styleMap val i ≠ none) ∧
    FindAllStringSubmatchIndex "fox order:rank" =
      [Submatch.ofGroups 4 "order".toList "rank".toList] ∧
    (List.range 14).map (styleMap "fox order:rank") =
      [none, none, none, none, some Style.keyStyle, some Style.keyStyle, some Style.keyStyle,
       some Style.keyStyle, some Style.keyStyle, none, some Style.valueStyle,
       some Style.valueStyle, some Style.valueStyle, some Style.valueStyle] := by
  refine ⟨(findAllFrom_eq val.toList 0).1 0, findAllFrom_token, findAllFrom_space,
    splitLastColon_some, ?_, ?_, by decide, by decide⟩
  · intro i s h
    rcases foldl_setStyles_some i _ none s h with h1 | h1
    · cases h1
    · exact h1
  · intro i h
    exact foldl_setStyles_marked i _ none (Or.inr h)

end E621
